import Mathlib

/-!
# Verification of the spatial-issue-tracker core

Shallow embedding of the three core components of the repository:

* the geo-grid issue cache (`src/segfault-backend/src/services/IssueCacheService.ts`),
* the road-graph import script (`src/unnamed/part_008`, `importGraph.ts`),
* the A* pathfinding service (`src/unnamed/part_010`, `PathfindingService.ts`),

together with theorems settling the frozen claims about them.

Modelling conventions:

* JavaScript `number` is modelled as `ℚ` (the claims under scrutiny are not
  about floating-point rounding); `Math.floor` is `Int.floor`.
* Database rows are lists in store order; `findMany` with a `where` clause is
  `List.filter`, `take n` is `List.take n`, `findUnique` is `List.find?`.
* The Redis cache is an explicit state record passed through the functions;
  a TTL-expired or absent entry is `none`.  Effect counters (database queries,
  cache reads, cache writes) are threaded alongside so that "bypasses the
  cache" and "queries the store" are provable statements.
* Grid-cell keys `issues:grid:${lat}:${lng}` round-trip through integers in
  the source (template string followed by `split(':')` / `parseInt`), so cells
  are modelled directly as pairs of integers.
-/

namespace IssueCache

/-- `GRID_CELL_SIZE = 0.01` degrees. -/
def GRID_CELL_SIZE : ℚ := 1 / 100

/-- An `Issue` row of the backing store.  `latitude`/`longitude` are nullable
in the schema (the source reads them with `?? 0`), hence `Option ℚ`.
`createdAt` is a timestamp (the ISO string used in the source is
order-isomorphic to it). -/
structure Issue where
  id : Nat
  title : String
  status : String
  issueType : String
  latitude : Option ℚ
  longitude : Option ℚ
  upvotes : Nat
  comments : Nat
  createdAt : ℚ
  deriving DecidableEq, Repr

/-- The lightweight summary payload cached per issue. -/
structure IssueSummary where
  id : Nat
  title : String
  status : String
  issueType : String
  latitude : ℚ
  longitude : ℚ
  voteCount : Nat
  commentCount : Nat
  createdAt : ℚ
  deriving DecidableEq, Repr

/-- Building an `IssueSummary` from a row, as done at both cache-fill sites
(`latitude: issue.latitude ?? 0`). -/
def mkSummary (i : Issue) : IssueSummary :=
  { id := i.id
    title := i.title
    status := i.status
    issueType := i.issueType
    latitude := i.latitude.getD 0
    longitude := i.longitude.getD 0
    voteCount := i.upvotes
    commentCount := i.comments
    createdAt := i.createdAt }

/-- The Redis cache: per-cell issue-ID lists and per-issue summaries. -/
structure CacheState where
  cell : Int × Int → Option (List Nat)
  summary : Nat → Option IssueSummary

/-- The empty (cold) cache. -/
def emptyCache : CacheState := { cell := fun _ => none, summary := fun _ => none }

/-- `getGridCellKey`: `(floor(lat / GRID_CELL_SIZE), floor(lng / GRID_CELL_SIZE))`. -/
def getGridCellKey (lat lng : ℚ) : Int × Int :=
  (⌊lat / GRID_CELL_SIZE⌋, ⌊lng / GRID_CELL_SIZE⌋)

/-- Inclusive integer range `[a, b]` as a list (the `for (let i = a; i <= b; i++)`
loop); empty when `b < a`. -/
def intRange (a b : Int) : List Int :=
  if a ≤ b then a :: intRange (a + 1) b else []
termination_by (b + 1 - a).toNat
decreasing_by omega

/-- `getGridCellsForBounds`: all cells covering the bounding box, outer loop on
latitude, inner loop on longitude. -/
def getGridCellsForBounds (minLat maxLat minLng maxLng : ℚ) : List (Int × Int) :=
  (intRange ⌊minLat / GRID_CELL_SIZE⌋ ⌊maxLat / GRID_CELL_SIZE⌋).flatMap fun la =>
    (intRange ⌊minLng / GRID_CELL_SIZE⌋ ⌊maxLng / GRID_CELL_SIZE⌋).map fun ln => (la, ln)

/-- Does a row match the per-cell range query
`latitude: { gte: cellLat, lt: cellLat + SIZE }` (and likewise longitude)?
A SQL comparison against NULL never matches. -/
def inCellRange (c : Int × Int) (i : Issue) : Bool :=
  match i.latitude, i.longitude with
  | some la, some ln =>
      decide ((c.1 : ℚ) * GRID_CELL_SIZE ≤ la) &&
      decide (la < (c.1 : ℚ) * GRID_CELL_SIZE + GRID_CELL_SIZE) &&
      decide ((c.2 : ℚ) * GRID_CELL_SIZE ≤ ln) &&
      decide (ln < (c.2 : ℚ) * GRID_CELL_SIZE + GRID_CELL_SIZE)
  | _, _ => false

/-- The resolved/unresolved filter `...(includeResolved ? {} : { status: { not: RESOLVED } })`. -/
def statusOk (includeResolved : Bool) (i : Issue) : Bool :=
  includeResolved || decide (i.status ≠ "RESOLVED")

/-- The per-cell database query issued for an uncached cell. -/
def cellQuery (db : List Issue) (includeResolved : Bool) (c : Int × Int) : List Issue :=
  db.filter fun i => inCellRange c i && statusOk includeResolved i

/-- Does a row match the direct bounding-box query of `fetchIssuesFromDb`
(`gte`/`lte` on both coordinates)? -/
def inBoxRange (minLat maxLat minLng maxLng : ℚ) (i : Issue) : Bool :=
  match i.latitude, i.longitude with
  | some la, some ln =>
      decide (minLat ≤ la) && decide (la ≤ maxLat) &&
      decide (minLng ≤ ln) && decide (ln ≤ maxLng)
  | _, _ => false

/-- `fetchIssuesFromDb`: direct capped range query (`take: 500`, no ordering
requested), mapped to summaries. -/
def fetchIssuesFromDb (db : List Issue) (minLat maxLat minLng maxLng : ℚ)
    (includeResolved : Bool) : List IssueSummary :=
  ((db.filter fun i =>
      inBoxRange minLat maxLat minLng maxLng i && statusOk includeResolved i).take 500).map
    mkSummary

/-- Insertion into the `allIssueIds` set; a JavaScript `Set` keeps insertion
order and ignores re-insertions. -/
def insertId (l : List Nat) (i : Nat) : List Nat :=
  if i ∈ l then l else l ++ [i]

/-- Result of `getIssuesInBounds` together with the final cache state and the
counts of backing-store queries, cache reads and cache writes performed. -/
structure GIBOut where
  result : List IssueSummary
  cache : CacheState
  dbQueries : Nat
  cacheReads : Nat
  cacheWrites : Nat

/-- Write a cell ID list (`cacheGridCell`). -/
def writeCell (st : CacheState) (c : Int × Int) (ids : List Nat) : CacheState :=
  { st with cell := fun d => if d = c then some ids else st.cell d }

/-- Write a summary (`cacheIssueSummary`), keyed by the summary's own id. -/
def writeSummary (st : CacheState) (s : IssueSummary) : CacheState :=
  { st with summary := fun j => if j = s.id then some s else st.summary j }

/-- Phase 1 of `getIssuesInBounds`: read every cell from the cache, collecting
the cached IDs and the cache-miss cells (in cell order). -/
def collectCells (st : CacheState) (cells : List (Int × Int)) :
    List Nat × List (Int × Int) :=
  cells.foldl
    (fun acc c =>
      match st.cell c with
      | some ids => (ids.foldl insertId acc.1, acc.2)
      | none => (acc.1, acc.2 ++ [c]))
    ([], [])

/-- Phase 2: query each uncached cell, cache its ID list, cache each summary
and add each id.  Returns `(cache, allIssueIds, dbQueries, cacheWrites)`. -/
def fillCells (db : List Issue) (includeResolved : Bool)
    (init : CacheState × List Nat × Nat × Nat) (uncached : List (Int × Int)) :
    CacheState × List Nat × Nat × Nat :=
  uncached.foldl
    (fun acc c =>
      let cellIssues := cellQuery db includeResolved c
      let st1 := writeCell acc.1 c (cellIssues.map (·.id))
      cellIssues.foldl
        (fun acc2 issue =>
          (writeSummary acc2.1 (mkSummary issue), insertId acc2.2.1 issue.id,
            acc2.2.2.1, acc2.2.2.2 + 1))
        (st1, acc.2.1, acc.2.2.1 + 1, acc.2.2.2 + 1))
    init

/-- The final per-id filter: skip resolved summaries unless requested, then
keep the summary only if it lies in the exact bounding box. -/
def pushFiltered (includeResolved : Bool) (minLat maxLat minLng maxLng : ℚ)
    (res : List IssueSummary) (s : IssueSummary) : List IssueSummary :=
  if !includeResolved && s.status == "RESOLVED" then res
  else if minLat ≤ s.latitude ∧ s.latitude ≤ maxLat ∧
          minLng ≤ s.longitude ∧ s.longitude ≤ maxLng then
    res ++ [s]
  else res

/-- Phase 3: resolve every collected id from the summary cache or the store,
re-caching store fetches, and apply the final filter.  The accumulator is
`(cache, results, dbQueries, cacheReads, cacheWrites)`. -/
def resolveIds (db : List Issue) (includeResolved : Bool)
    (minLat maxLat minLng maxLng : ℚ)
    (init : CacheState × List IssueSummary × Nat × Nat × Nat) (ids : List Nat) :
    CacheState × List IssueSummary × Nat × Nat × Nat :=
  ids.foldl
    (fun acc i =>
      let reads := acc.2.2.2.1 + 1
      match acc.1.summary i with
      | some s =>
          (acc.1, pushFiltered includeResolved minLat maxLat minLng maxLng acc.2.1 s,
            acc.2.2.1, reads, acc.2.2.2.2)
      | none =>
          match db.find? (fun x => x.id == i) with
          | some issue =>
              let s := mkSummary issue
              (writeSummary acc.1 s,
                pushFiltered includeResolved minLat maxLat minLng maxLng acc.2.1 s,
                acc.2.2.1 + 1, reads, acc.2.2.2.2 + 1)
          | none => (acc.1, acc.2.1, acc.2.2.1 + 1, reads, acc.2.2.2.2))
    init

/-- `getIssuesInBounds(minLat, maxLat, minLng, maxLng, includeResolved)`. -/
def getIssuesInBounds (db : List Issue) (st : CacheState)
    (minLat maxLat minLng maxLng : ℚ) (includeResolved : Bool) : GIBOut :=
  let cells := getGridCellsForBounds minLat maxLat minLng maxLng
  if cells.length > 100 then
    { result := fetchIssuesFromDb db minLat maxLat minLng maxLng includeResolved
      cache := st
      dbQueries := 1
      cacheReads := 0
      cacheWrites := 0 }
  else
    let c1 := collectCells st cells
    let c2 := fillCells db includeResolved (st, c1.1, 0, 0) c1.2
    let c3 := resolveIds db includeResolved minLat maxLat minLng maxLng
      (c2.1, [], c2.2.2.1, cells.length, c2.2.2.2) c2.2.1
    { result := c3.2.1
      cache := c3.1
      dbQueries := c3.2.2.1
      cacheReads := c3.2.2.2.1
      cacheWrites := c3.2.2.2.2 }

end IssueCache

namespace GraphImport

/-!
Model of the import script (`importGraph.ts`).  The external Overpass fetch is
a parameter of type `Except Unit OSMData` (success payload or failure); the
database-generated UUID for a node row is a parameter `uuidOf`; the great-circle
distance routine from the turf library is a parameter `distFn`.  OSM ids are
kept as `Nat` (the source stores `String(osmId)` and reads it back with
`parseInt`, an identity round-trip).
-/

/-- An OSM node element (`{ type: "node", id, lat, lon }`). -/
structure OSMNode where
  id : Nat
  lat : ℚ
  lon : ℚ
  deriving DecidableEq, Repr

/-- An OSM way element (`{ type: "way", id, nodes }`). -/
structure OSMWay where
  id : Nat
  nodes : List Nat
  deriving DecidableEq, Repr

/-- The payload of a successful Overpass fetch, already split into the node
map and the way list (`fetchOSMData` returns `{ nodes, ways }`). -/
structure OSMData where
  nodes : List OSMNode
  ways : List OSMWay
  deriving DecidableEq, Repr

/-- A persisted `GraphNode` row. -/
structure DBNode where
  id : String
  osmId : Nat
  latitude : ℚ
  longitude : ℚ
  deriving DecidableEq, Repr

/-- A persisted `GraphEdge` row (`penalty` defaults to `1.0` in the schema). -/
structure DBEdge where
  startNodeId : String
  endNodeId : String
  distance : ℚ
  baseCost : ℚ
  penalty : ℚ
  deriving DecidableEq, Repr

/-- The persistent graph store. -/
structure GraphState where
  nodes : List DBNode
  edges : List DBEdge
  deriving DecidableEq, Repr

/-- Order-preserving deduplicating insertion (the `Set<number>` of used node
ids). -/
def insertNat (l : List Nat) (i : Nat) : List Nat :=
  if i ∈ l then l else l ++ [i]

/-- `createMany` with `skipDuplicates: true` on the unique `osmId` key. -/
def createNodesSkipDup (existing : List DBNode) (toCreate : List DBNode) : List DBNode :=
  toCreate.foldl
    (fun acc n => if acc.any (fun m => m.osmId == n.osmId) then acc else acc ++ [n])
    existing

/-- The edge rows a way list produces: for every consecutive node pair of every
way whose OSM nodes and created UUIDs both resolve, a forward and a reverse
edge with `distance = baseCost` the computed great-circle distance and the
schema-default penalty `1.0`. -/
def edgesOfWays (distFn : ℚ → ℚ → ℚ → ℚ → ℚ) (osmNodes : List OSMNode)
    (nodeIdMap : Nat → Option String) (ways : List OSMWay) : List DBEdge :=
  ways.flatMap fun way =>
    (way.nodes.zip way.nodes.tail).flatMap fun p =>
      match osmNodes.find? (fun n => n.id == p.1), osmNodes.find? (fun n => n.id == p.2),
          nodeIdMap p.1, nodeIdMap p.2 with
      | some s, some e, some su, some eu =>
          let d := distFn s.lat s.lon e.lat e.lon
          [⟨su, eu, d, d, 1⟩, ⟨eu, su, d, d, 1⟩]
      | _, _, _, _ => []

/-- `importGraph()`: clears the whole graph store (`deleteMany` on edges, then
nodes), then fetches, then creates nodes, then edges.  A failed fetch
propagates as the thrown error, after the deletions have already happened.
The returned pair is the final store and either the import summary
(`(created nodes, created edges)`) or the propagated failure. -/
def importGraph (uuidOf : Nat → String) (distFn : ℚ → ℚ → ℚ → ℚ → ℚ)
    (st : GraphState) (fetchResult : Except Unit OSMData) :
    GraphState × Except Unit (Nat × Nat) :=
  let cleared : GraphState := { nodes := [], edges := [] }
  match fetchResult with
  | .error e => (cleared, .error e)
  | .ok data =>
      let usedNodeIds := data.ways.foldl (fun acc w => w.nodes.foldl insertNat acc) []
      let nodesToCreate := usedNodeIds.filterMap fun osmId =>
        (data.nodes.find? (fun n => n.id == osmId)).map fun n =>
          (⟨uuidOf osmId, osmId, n.lat, n.lon⟩ : DBNode)
      let nodes1 := createNodesSkipDup cleared.nodes nodesToCreate
      let createdNodes := nodes1.filter fun n =>
        (nodesToCreate.map (·.osmId)).contains n.osmId
      let nodeIdMap := fun osmId =>
        (createdNodes.find? (fun n => n.osmId == osmId)).map (·.id)
      let edgesToCreate := edgesOfWays distFn data.nodes nodeIdMap data.ways
      let edges1 := cleared.edges ++ edgesToCreate
      ({ nodes := nodes1, edges := edges1 }, .ok (createdNodes.length, edgesToCreate.length))

end GraphImport

namespace Pathfinding

/-!
Model of the pathfinding service (`PathfindingService.ts`).  The turf
great-circle distance used both for snapping and as the A* heuristic is a
parameter `h : ℚ → ℚ → ℚ → ℚ → ℚ` (an external library function).  The
database node and edge tables are lists.  `TinyQueue` with comparator
`(a, b) => a.fScore - b.fScore` is modelled as a list whose pop removes the
first element of minimal `fScore`.
-/

/-- A `GraphNode` row as selected by the service. -/
structure PathNode where
  id : String
  latitude : ℚ
  longitude : ℚ
  deriving DecidableEq, Repr

/-- A `GraphEdge` row as selected by the service. -/
structure PathEdge where
  id : String
  startNodeId : String
  endNodeId : String
  distance : ℚ
  baseCost : ℚ
  penalty : ℚ
  deriving DecidableEq, Repr

/-- An adjacency-list entry. -/
structure AdjEntry where
  nodeId : String
  cost : ℚ
  distance : ℚ
  edgeId : String
  deriving DecidableEq, Repr

/-- A queue item. -/
structure QueueItem where
  nodeId : String
  fScore : ℚ
  deriving DecidableEq, Repr

/-- A returned coordinate. -/
structure Coord where
  lat : ℚ
  lng : ℚ
  deriving DecidableEq, Repr

/-- The service's `PathResult`. -/
structure PathResult where
  path : List Coord
  totalDistance : ℚ
  totalCost : ℚ
  estimatedTime : ℚ
  deriving DecidableEq, Repr

/-- The expanding snap radii searched in order. -/
def searchRadii : List ℚ := [1/1000, 5/1000, 1/100, 5/100]

/-- The nodes inside the square box of half-width `radius` around the query
point (the `findMany` range query of `findNearestNode`). -/
def nodesInBox (nodes : List PathNode) (lat lng radius : ℚ) : List PathNode :=
  nodes.filter fun n =>
    decide (lat - radius ≤ n.latitude) && decide (n.latitude ≤ lat + radius) &&
    decide (lng - radius ≤ n.longitude) && decide (n.longitude ≤ lng + radius)

/-- The `minDist` scan inside `findNearestNode`: first node achieving the
strict minimum heuristic distance to the query point. -/
def pickClosest (h : ℚ → ℚ → ℚ → ℚ → ℚ) (lat lng : ℚ) :
    Option PathNode → List PathNode → Option PathNode
  | best, [] => best
  | none, n :: ns => pickClosest h lat lng (some n) ns
  | some b, n :: ns =>
      if h lat lng n.latitude n.longitude < h lat lng b.latitude b.longitude then
        pickClosest h lat lng (some n) ns
      else
        pickClosest h lat lng (some b) ns

/-- `findNearestNode`: try each radius in order; at the first radius whose box
query is non-empty return the closest node found; `null` when every radius
fails. -/
def findNearestNodeAux (h : ℚ → ℚ → ℚ → ℚ → ℚ) (nodes : List PathNode)
    (lat lng : ℚ) : List ℚ → Option PathNode
  | [] => none
  | r :: rs =>
      let found := nodesInBox nodes lat lng r
      if found.isEmpty then findNearestNodeAux h nodes lat lng rs
      else pickClosest h lat lng none found

/-- `findNearestNode(lat, lng)`. -/
def findNearestNode (h : ℚ → ℚ → ℚ → ℚ → ℚ) (nodes : List PathNode)
    (lat lng : ℚ) : Option PathNode :=
  findNearestNodeAux h nodes lat lng searchRadii

/-- The effective penalty guard:
`const penalty = edge.penalty === 0 ? 1 : edge.penalty`. -/
def effectivePenalty (e : PathEdge) : ℚ :=
  if e.penalty = 0 then 1 else e.penalty

/-- The adjacency entry generated for one edge. -/
def entryOf (e : PathEdge) : AdjEntry :=
  { nodeId := e.endNodeId
    cost := e.distance * effectivePenalty e
    distance := e.distance
    edgeId := e.id }

/-- `buildAdjacencyList`: fold each edge's entry onto its start node's list
(in edge order); a key never pushed to maps to `[]`, which is also what the
search's `adjacency.get(...) || []` yields for a missing key. -/
def buildAdjacencyList (edges : List PathEdge) : String → List AdjEntry :=
  edges.foldl
    (fun adj e => fun k => if k = e.startNodeId then adj k ++ [entryOf e] else adj k)
    (fun _ => [])

/-- The node lookup map built from all loaded nodes (`nodeMap.set`, so a later
row with the same id overwrites an earlier one). -/
def buildNodeMap (nodes : List PathNode) : String → Option PathNode :=
  nodes.foldl (fun m n => fun k => if k = n.id then some n else m k) (fun _ => none)

/-- The mutable A* bookkeeping: `gScore`, `cameFrom` and `distanceFrom` maps
(`none` = key absent; the source reads the maps with `?? Infinity` for scores
and `?? 0` for distances). -/
structure AStarState where
  gScore : String → Option ℚ
  cameFrom : String → Option String
  distanceFrom : String → Option ℚ

/-- Pop of the `TinyQueue` min-queue: remove the first item of minimal
`fScore`. -/
def popMin : List QueueItem → Option (QueueItem × List QueueItem)
  | [] => none
  | x :: xs =>
      match popMin xs with
      | none => some (x, [])
      | some (m, rest) =>
          if x.fScore ≤ m.fScore then some (x, xs) else some (m, x :: rest)

/-- One relaxation of a neighbor entry.  `gScore.get(current) ?? Infinity`
makes the tentative score infinite when `current` has no score, and
`Infinity < x` never holds, so no relaxation happens then; an absent neighbor
score compares as `Infinity`, so any finite tentative score beats it.  On a
successful relaxation all three maps are updated, and a queue item is pushed
when the neighbor node resolves in `nodeMap`. -/
def relaxStep (h : ℚ → ℚ → ℚ → ℚ → ℚ) (nodeMap : String → Option PathNode)
    (endNode : PathNode) (current : String) (acc : AStarState × List QueueItem)
    (nb : AdjEntry) : AStarState × List QueueItem :=
  match acc.1.gScore current with
  | none => acc
  | some g =>
      let tentativeGScore := g + nb.cost
      let tentativeDistance := (acc.1.distanceFrom current).getD 0 + nb.distance
      let improves :=
        match acc.1.gScore nb.nodeId with
        | none => true
        | some gn => decide (tentativeGScore < gn)
      if improves then
        let s1 : AStarState :=
          { gScore := fun k => if k = nb.nodeId then some tentativeGScore else acc.1.gScore k
            cameFrom := fun k => if k = nb.nodeId then some current else acc.1.cameFrom k
            distanceFrom := fun k =>
              if k = nb.nodeId then some tentativeDistance else acc.1.distanceFrom k }
        match nodeMap nb.nodeId with
        | some nbNode =>
            (s1, acc.2 ++ [⟨nb.nodeId,
              tentativeGScore + h nbNode.latitude nbNode.longitude
                endNode.latitude endNode.longitude⟩])
        | none => (s1, acc.2)
      else acc

/-- Relax all neighbors of the node being expanded. -/
def relaxAll (h : ℚ → ℚ → ℚ → ℚ → ℚ) (nodeMap : String → Option PathNode)
    (endNode : PathNode) (current : String) (neighbors : List AdjEntry)
    (s : AStarState) (rest : List QueueItem) : AStarState × List QueueItem :=
  neighbors.foldl (relaxStep h nodeMap endNode current) (s, rest)

/-- Path reconstruction: walk `cameFrom` links from the end node, prepending
each resolvable node's coordinates (`path.unshift`).  The source's `while`
loop is given explicit fuel; `findPath` passes enough for any chain the
search can build. -/
def reconstructPath (nodeMap : String → Option PathNode)
    (cameFrom : String → Option String) (fuel : Nat) (nid? : Option String)
    (acc : List Coord) : List Coord :=
  if fuel = 0 then acc
  else
    match nid? with
    | none => acc
    | some nid =>
        let acc1 := match nodeMap nid with
          | some n => ({ lat := n.latitude, lng := n.longitude } : Coord) :: acc
          | none => acc
        reconstructPath nodeMap cameFrom (fuel - 1) (cameFrom nid) acc1
termination_by fuel
decreasing_by omega

/-- Assemble the returned `PathResult` when the end node is popped
(`?? 0` defaults for the end node's recorded cost and distance, time at
30 km/h in minutes). -/
def buildResult (nodeMap : String → Option PathNode) (nodesLen : Nat)
    (s : AStarState) (endId : String) : PathResult :=
  let totalDistance := (s.distanceFrom endId).getD 0
  let totalCost := (s.gScore endId).getD 0
  { path := reconstructPath nodeMap s.cameFrom (nodesLen + 1) (some endId) []
    totalDistance := totalDistance
    totalCost := totalCost
    estimatedTime := totalDistance / 1000 / 30 * 60 }

/-- The A* main loop.  Each iteration pops the minimum item; the goal test
precedes the visited test; a visited pop is skipped; otherwise the node is
marked visited and its adjacency entries are relaxed.  The loop is given
explicit fuel; since a node is expanded at most once, the source loop runs at
most `1 + |edges|` iterations, and `findPath` passes more than that, so the
fuel never runs out on the source's executions. -/
def astarLoop (h : ℚ → ℚ → ℚ → ℚ → ℚ) (nodeMap : String → Option PathNode)
    (adjacency : String → List AdjEntry) (nodesLen : Nat) (endNode : PathNode)
    (fuel : Nat) (openSet : List QueueItem) (s : AStarState)
    (visited : List String) : Option PathResult :=
  if fuel = 0 then none
  else
    match popMin openSet with
    | none => none
    | some (current, rest) =>
        if current.nodeId = endNode.id then
          some (buildResult nodeMap nodesLen s endNode.id)
        else if current.nodeId ∈ visited then
          astarLoop h nodeMap adjacency nodesLen endNode (fuel - 1) rest s visited
        else
          let visited1 := current.nodeId :: visited
          let acc := relaxAll h nodeMap endNode current.nodeId
            (adjacency current.nodeId) s rest
          astarLoop h nodeMap adjacency nodesLen endNode (fuel - 1) acc.2 acc.1 visited1
termination_by fuel
decreasing_by all_goals omega

/-- The initial A* state: `gScore` and `distanceFrom` are `0` for the start
node and absent elsewhere; `cameFrom` is empty. -/
def initState (startId : String) : AStarState :=
  { gScore := fun k => if k = startId then some 0 else none
    cameFrom := fun _ => none
    distanceFrom := fun k => if k = startId then some 0 else none }

/-- `findPath(startLat, startLng, endLat, endLng)`: snap both endpoints, run
A* over the whole loaded graph, `null` when snapping fails or the search
exhausts. -/
def findPath (h : ℚ → ℚ → ℚ → ℚ → ℚ) (nodes : List PathNode)
    (edges : List PathEdge) (startLat startLng endLat endLng : ℚ) :
    Option PathResult :=
  match findNearestNode h nodes startLat startLng,
      findNearestNode h nodes endLat endLng with
  | some startNode, some endNode =>
      let nodeMap := buildNodeMap nodes
      let adjacency := buildAdjacencyList edges
      astarLoop h nodeMap adjacency nodes.length endNode
        (edges.length + nodes.length + 2)
        [{ nodeId := startNode.id, fScore := 0 }]
        (initState startNode.id) []
  | _, _ => none

/-- A walk through the adjacency structure: a list of adjacency entries
forming a chain from `u` to `v`. -/
def ValidWalk (adj : String → List AdjEntry) : String → String → List AdjEntry → Prop
  | u, v, [] => u = v
  | u, v, e :: es => e ∈ adj u ∧ ValidWalk adj e.nodeId v es

/-- Penalized cost of a walk. -/
def walkCost (es : List AdjEntry) : ℚ := (es.map (·.cost)).sum

/-- Raw (unpenalized) distance of a walk. -/
def walkDist (es : List AdjEntry) : ℚ := (es.map (·.distance)).sum

/-- The coordinate a node id contributes to a reconstructed path, when it
resolves in the node map. -/
def coordOf (nodeMap : String → Option PathNode) (nid : String) : Option Coord :=
  (nodeMap nid).map fun n => { lat := n.latitude, lng := n.longitude }

/-- The heuristic value of a node id toward the snapped end node (`0` for an
id that does not resolve, which the search never pushes). -/
def hOf (h : ℚ → ℚ → ℚ → ℚ → ℚ) (nodeMap : String → Option PathNode)
    (endNode : PathNode) (n : String) : ℚ :=
  match nodeMap n with
  | some node => h node.latitude node.longitude endNode.latitude endNode.longitude
  | none => 0

/-- The result `findPath` produces on the one-node graph used as a concrete
instance: a single coordinate point with zero cost and distance. -/
def singlePointResult : PathResult :=
  { path := [{ lat := 0, lng := 0 }], totalDistance := 0, totalCost := 0
    estimatedTime := 0 }

/-- The result `findPath` produces on the concrete two-node graph with one
unit edge used as an instance: both endpoints' coordinates, cost and distance
`1`, time for one metre at 30 km/h. -/
def twoNodeResult : PathResult :=
  { path := [{ lat := 0, lng := 0 }, { lat := 1, lng := 0 }]
    totalDistance := 1, totalCost := 1, estimatedTime := 1/500 }

/-- The recorded data of node `n` is realized by a `cameFrom` chain of length
`k` ending at the start node: each link is an adjacency entry whose recorded
score and distance are the predecessor's plus the entry's, and every
predecessor on the chain is a visited node. -/
def Traced (adj : String → List AdjEntry) (s : AStarState) (startId : String)
    (visited : List String) : Nat → String → Prop
  | 0, n => n = startId
  | k + 1, n =>
      ∃ u e, s.cameFrom n = some u ∧ e ∈ adj u ∧ e.nodeId = n ∧ u ∈ visited ∧
        (∃ gu, s.gScore u = some gu ∧ s.gScore n = some (gu + e.cost)) ∧
        (∃ du, s.distanceFrom u = some du ∧
          s.distanceFrom n = some (du + e.distance)) ∧
        Traced adj s startId visited k u

/-- Invariant of the A* loop state.  `hOfF` is the heuristic-by-node-id
function; `startId` the snapped start node's id.  Visited nodes carry optimal
recorded scores; every recorded node is realized by a `cameFrom` chain through
visited nodes; every queue item's score is bounded below by its node's
recorded score plus heuristic; every recorded unvisited node has a queue item
bounded above by its recorded score plus heuristic. -/
structure AInv (adj : String → List AdjEntry) (nm : String → Option PathNode)
    (hOfF : String → ℚ) (startId : String) (s : AStarState)
    (openSet : List QueueItem) (visited : List String) : Prop where
  start_g : s.gScore startId = some 0
  start_d : s.distanceFrom startId = some 0
  start_cf : s.cameFrom startId = none
  visited_opt : ∀ n ∈ visited, ∃ g, s.gScore n = some g ∧
    ∀ es, ValidWalk adj startId n es → g ≤ walkCost es
  traced : ∀ n g, s.gScore n = some g → ∃ k, Traced adj s startId visited k n
  queue_lower : ∀ it ∈ openSet, it.nodeId = startId ∨
    ∃ g, s.gScore it.nodeId = some g ∧ g + hOfF it.nodeId ≤ it.fScore
  queue_witness : ∀ n, n ∉ visited → ∀ g, s.gScore n = some g →
    ∃ it ∈ openSet, it.nodeId = n ∧ it.fScore ≤ g + hOfF n
  nm_visited : ∀ n ∈ visited, (nm n).isSome
  nm_queue : ∀ it ∈ openSet, (nm it.nodeId).isSome
  visited_nodup : visited.Nodup

/-- All adjacency entries of already-expanded nodes have been relaxed: the
target's recorded score is at most the source's recorded score plus the entry
cost. -/
def Expanded (adj : String → List AdjEntry) (s : AStarState)
    (visited : List String) : Prop :=
  ∀ p ∈ visited, ∀ e ∈ adj p, ∃ gp gy, s.gScore p = some gp ∧
    s.gScore e.nodeId = some gy ∧ gy ≤ gp + e.cost

end Pathfinding

namespace IssueCache

/-- A resolved issue sitting inside grid cell `(0, 0)`. -/
def resolvedIssue : Issue :=
  { id := 1, title := "t", status := "RESOLVED", issueType := "POTHOLE"
    latitude := some (1/200), longitude := some (1/200)
    upvotes := 0, comments := 0, createdAt := 0 }

/-- An old open issue (store position before `newIssue`). -/
def oldIssue : Issue :=
  { id := 1, title := "old", status := "OPEN", issueType := "POTHOLE"
    latitude := some 1, longitude := some 0
    upvotes := 0, comments := 0, createdAt := 0 }

/-- The most recently created issue, stored after 500 older rows. -/
def newIssue : Issue :=
  { id := 2, title := "new", status := "OPEN", issueType := "POTHOLE"
    latitude := some 1, longitude := some 0
    upvotes := 0, comments := 0, createdAt := 1 }

/-- A store of 500 old rows followed by the newest row. -/
def db501 : List Issue := List.replicate 500 oldIssue ++ [newIssue]

/-- The final filter of phase 3 viewed as an optional value: `none` when the
summary is skipped (resolved and not requested, or outside the exact box). -/
def filterStep (includeResolved : Bool) (minLat maxLat minLng maxLng : ℚ)
    (s : IssueSummary) : Option IssueSummary :=
  if !includeResolved && s.status == "RESOLVED" then none
  else if minLat ≤ s.latitude ∧ s.latitude ≤ maxLat ∧
          minLng ≤ s.longitude ∧ s.longitude ≤ maxLng then some s
  else none

/-- The summary phase 3 contributes for one collected id when the summary
cache agrees with the store: look the row up by id and apply the final
filter. -/
def resolveId (db : List Issue) (includeResolved : Bool)
    (minLat maxLat minLng maxLng : ℚ) (i : Nat) : Option IssueSummary :=
  match db.find? (fun x => x.id == i) with
  | some iss => filterStep includeResolved minLat maxLat minLng maxLng (mkSummary iss)
  | none => none

/-- A bounding box, the varying arguments of one `getIssuesInBounds` call. -/
structure QueryBox where
  minLat : ℚ
  maxLat : ℚ
  minLng : ℚ
  maxLng : ℚ

/-- The cache produced by a sequence of `getIssuesInBounds` calls (all with
the same `includeResolved` flag) starting from the cold cache. -/
def runCalls (db : List Issue) (includeResolved : Bool) (ps : List QueryBox) :
    CacheState :=
  ps.foldl
    (fun st p =>
      (getIssuesInBounds db st p.minLat p.maxLat p.minLng p.maxLng includeResolved).cache)
    emptyCache

/-- Cache states whose entries agree with the store under the flag `flag`:
every cached cell ID list is exactly that cell's query result, and every
cached summary is the summary of the store row with that id. -/
def CacheConsistent (db : List Issue) (flag : Bool) (st : CacheState) : Prop :=
  (∀ c ids, st.cell c = some ids → ids = (cellQuery db flag c).map (fun i => i.id)) ∧
  (∀ i s, st.summary i = some s →
    ∃ iss, db.find? (fun x => x.id == i) = some iss ∧ s = mkSummary iss)

end IssueCache

namespace IssueCache

theorem intRange_of_le {a b : Int} (h : a ≤ b) :
    intRange a b = a :: intRange (a + 1) b := by
  rw [intRange, if_pos h]

theorem intRange_of_gt {a b : Int} (h : b < a) : intRange a b = [] := by
  rw [intRange, if_neg (by omega)]

theorem length_intRange (a b : Int) : (intRange a b).length = (b + 1 - a).toNat := by
  rw [intRange]
  split
  · rw [List.length_cons, length_intRange (a + 1) b]
    omega
  · simp
    omega
termination_by (b + 1 - a).toNat
decreasing_by omega

theorem length_getGridCellsForBounds (minLat maxLat minLng maxLng : ℚ) :
    (getGridCellsForBounds minLat maxLat minLng maxLng).length =
      (⌊maxLat / GRID_CELL_SIZE⌋ + 1 - ⌊minLat / GRID_CELL_SIZE⌋).toNat *
      (⌊maxLng / GRID_CELL_SIZE⌋ + 1 - ⌊minLng / GRID_CELL_SIZE⌋).toNat := by
  simp [getGridCellsForBounds, List.length_flatMap, Function.comp_def,
    length_intRange, List.map_const, List.sum_replicate, smul_eq_mul, Nat.mul_comm]

theorem getGridCellsForBounds_eq_nil (minLat maxLat minLng maxLng : ℚ)
    (h : ⌊maxLat / GRID_CELL_SIZE⌋ < ⌊minLat / GRID_CELL_SIZE⌋ ∨
         ⌊maxLng / GRID_CELL_SIZE⌋ < ⌊minLng / GRID_CELL_SIZE⌋) :
    getGridCellsForBounds minLat maxLat minLng maxLng = [] := by
  rcases h with h | h <;>
    simp [getGridCellsForBounds, intRange_of_gt h, List.flatMap]

/-- C10: for an inverted bounding box (after cell rounding the minimum cell
index exceeds the maximum on either axis), `getIssuesInBounds` computes an
empty cell list and returns the empty result with no backing-store query, no
cache read and no cache write, leaving the cache untouched. -/
theorem getIssuesInBounds_inverted_empty (db : List Issue) (st : CacheState)
    (minLat maxLat minLng maxLng : ℚ) (includeResolved : Bool)
    (h : ⌊maxLat / GRID_CELL_SIZE⌋ < ⌊minLat / GRID_CELL_SIZE⌋ ∨
         ⌊maxLng / GRID_CELL_SIZE⌋ < ⌊minLng / GRID_CELL_SIZE⌋) :
    getIssuesInBounds db st minLat maxLat minLng maxLng includeResolved =
      { result := [], cache := st, dbQueries := 0, cacheReads := 0, cacheWrites := 0 } := by
  rw [getIssuesInBounds, getGridCellsForBounds_eq_nil minLat maxLat minLng maxLng h]
  simp [collectCells, fillCells, resolveIds]

/-- Witness for C10 at a concrete inverted box. -/
theorem getIssuesInBounds_inverted_empty_witness :
    (⌊(0 : ℚ) / GRID_CELL_SIZE⌋ < ⌊((1 : ℚ)/100) / GRID_CELL_SIZE⌋ ∨
       ⌊(0 : ℚ) / GRID_CELL_SIZE⌋ < ⌊(0 : ℚ) / GRID_CELL_SIZE⌋) ∧
    getIssuesInBounds [] emptyCache (1/100) 0 0 0 true =
      { result := [], cache := emptyCache, dbQueries := 0, cacheReads := 0,
        cacheWrites := 0 } := by
  have h : (⌊(0 : ℚ) / GRID_CELL_SIZE⌋ < ⌊((1 : ℚ)/100) / GRID_CELL_SIZE⌋ ∨
      ⌊(0 : ℚ) / GRID_CELL_SIZE⌋ < ⌊(0 : ℚ) / GRID_CELL_SIZE⌋) := by
    left
    norm_num [GRID_CELL_SIZE]
  exact ⟨h, getIssuesInBounds_inverted_empty [] emptyCache (1/100) 0 0 0 true h⟩

/-- C7 (amended): when the bounding box covers more than 100 grid cells, the
call performs no cache reads or writes, leaves the cache untouched, and issues
exactly one direct range query whose result is capped at 500 issues (taken in
backing-store order, since the query requests no ordering). -/
theorem getIssuesInBounds_bypass (db : List Issue) (st : CacheState)
    (minLat maxLat minLng maxLng : ℚ) (includeResolved : Bool)
    (h : (getGridCellsForBounds minLat maxLat minLng maxLng).length > 100) :
    getIssuesInBounds db st minLat maxLat minLng maxLng includeResolved =
      { result := fetchIssuesFromDb db minLat maxLat minLng maxLng includeResolved
        cache := st
        dbQueries := 1
        cacheReads := 0
        cacheWrites := 0 } ∧
    (fetchIssuesFromDb db minLat maxLat minLng maxLng includeResolved).length ≤ 500 := by
  constructor
  · rw [getIssuesInBounds, if_pos h]
  · rw [fetchIssuesFromDb, List.length_map]
    exact List.length_take_le 500 _

/-- Witness for C7 (amended) at a box spanning 201 cells. -/
theorem getIssuesInBounds_bypass_witness :
    (getGridCellsForBounds 0 2 0 0).length > 100 ∧
    getIssuesInBounds [] emptyCache 0 2 0 0 true =
      { result := fetchIssuesFromDb [] 0 2 0 0 true
        cache := emptyCache
        dbQueries := 1
        cacheReads := 0
        cacheWrites := 0 } ∧
    (fetchIssuesFromDb [] 0 2 0 0 true).length ≤ 500 := by
  have h : (getGridCellsForBounds 0 2 0 0).length > 100 := by
    rw [length_getGridCellsForBounds]
    norm_num [GRID_CELL_SIZE]
  exact ⟨h, getIssuesInBounds_bypass [] emptyCache 0 2 0 0 true h⟩

/-- C7 (counterexample): on a store holding 500 older matching rows followed
by the newest matching row, a 201-cell bounding box triggers the direct
fallback, which returns 500 issues none of which is the newest matching issue:
the result is the first 500 rows in store order, not the 500 most recent by
creation time. -/
theorem getIssuesInBounds_bypass_not_most_recent :
    (inBoxRange 0 2 0 0 newIssue && statusOk true newIssue) = true ∧
    (getIssuesInBounds db501 emptyCache 0 2 0 0 true).result.length = 500 ∧
    (∀ s ∈ (getIssuesInBounds db501 emptyCache 0 2 0 0 true).result,
        s.createdAt < newIssue.createdAt) ∧
    newIssue.id ∉ (getIssuesInBounds db501 emptyCache 0 2 0 0 true).result.map
      IssueSummary.id := by
  have hcells : (getGridCellsForBounds 0 2 0 0).length > 100 := by
    rw [length_getGridCellsForBounds]
    norm_num [GRID_CELL_SIZE]
  have hres : (getIssuesInBounds db501 emptyCache 0 2 0 0 true).result =
      List.replicate 500 (mkSummary oldIssue) := by
    rw [getIssuesInBounds, if_pos hcells]
    show fetchIssuesFromDb db501 0 2 0 0 true = _
    rw [fetchIssuesFromDb]
    have hfilter : db501.filter
        (fun i => inBoxRange 0 2 0 0 i && statusOk true i) = db501 := by
      rw [List.filter_eq_self]
      intro a ha
      rw [db501] at ha
      rcases List.mem_append.mp ha with ha | ha
      · rw [List.eq_of_mem_replicate ha]
        norm_num [inBoxRange, statusOk, oldIssue]
      · rw [List.mem_singleton.mp ha]
        norm_num [inBoxRange, statusOk, newIssue]
    rw [hfilter, db501]
    have htake : (List.replicate 500 oldIssue ++ [newIssue]).take 500 =
        List.replicate 500 oldIssue := by
      rw [List.take_append_eq_append_take, List.take_replicate, List.length_replicate]
      norm_num
    rw [htake, List.map_replicate]
  refine ⟨by norm_num [inBoxRange, statusOk, newIssue], ?_, ?_, ?_⟩
  · rw [hres, List.length_replicate]
  · intro s hs
    rw [hres] at hs
    rw [List.eq_of_mem_replicate hs]
    norm_num [mkSummary, oldIssue, newIssue]
  · rw [hres, List.map_replicate]
    intro hmem
    have := List.eq_of_mem_replicate hmem
    norm_num [mkSummary, oldIssue, newIssue] at this

theorem mem_insertId {l : List Nat} {i x : Nat} :
    x ∈ insertId l i ↔ x ∈ l ∨ x = i := by
  rw [insertId]
  split
  · rename_i h
    constructor
    · exact fun hx => Or.inl hx
    · rintro (hx | rfl)
      · exact hx
      · exact h
  · simp

theorem mem_foldl_insertId (l : List Nat) (acc : List Nat) (x : Nat) :
    x ∈ l.foldl insertId acc ↔ x ∈ acc ∨ x ∈ l := by
  induction l generalizing acc with
  | nil => simp
  | cons a t ih =>
      rw [List.foldl_cons, ih, mem_insertId, List.mem_cons]
      constructor
      · rintro ((hx | rfl) | hx)
        · exact Or.inl hx
        · exact Or.inr (Or.inl rfl)
        · exact Or.inr (Or.inr hx)
      · rintro (hx | rfl | hx)
        · exact Or.inl (Or.inl hx)
        · exact Or.inl (Or.inr rfl)
        · exact Or.inr hx

theorem find?_id_of_nodup {db : List Issue} (hnodup : (db.map Issue.id).Nodup)
    {a : Issue} (ha : a ∈ db) : db.find? (fun x => x.id == a.id) = some a := by
  induction db with
  | nil => cases ha
  | cons b t ih =>
      rw [List.map_cons, List.nodup_cons] at hnodup
      rcases List.mem_cons.mp ha with rfl | hat
      · simp [List.find?_cons]
      · have hne : (b.id == a.id) = false := by
          rw [beq_eq_false_iff_ne]
          intro hba
          exact hnodup.1 (hba ▸ List.mem_map_of_mem Issue.id hat)
        rw [List.find?_cons, hne, ih hnodup.2 hat]

theorem pushFiltered_eq (flag : Bool) (a b c d : ℚ) (res : List IssueSummary)
    (s : IssueSummary) :
    pushFiltered flag a b c d res s = res ++ (filterStep flag a b c d s).toList := by
  rw [pushFiltered, filterStep]
  split
  · simp
  · split
    · simp
    · simp

theorem collectCells_snd (st : CacheState) (cells : List (Int × Int))
    (acc : List Nat × List (Int × Int)) :
    (cells.foldl
        (fun acc c =>
          match st.cell c with
          | some ids => (ids.foldl insertId acc.1, acc.2)
          | none => (acc.1, acc.2 ++ [c]))
        acc).2 =
      acc.2 ++ cells.filter (fun c => (st.cell c).isNone) := by
  induction cells generalizing acc with
  | nil => simp
  | cons c t ih =>
      rw [List.foldl_cons]
      cases hcell : st.cell c with
      | some ids => simp [hcell, ih, List.filter_cons]
      | none => simp [hcell, ih, List.filter_cons]

theorem mem_collectCells_fst (st : CacheState) (cells : List (Int × Int))
    (acc : List Nat × List (Int × Int)) (x : Nat) :
    x ∈ (cells.foldl
        (fun acc c =>
          match st.cell c with
          | some ids => (ids.foldl insertId acc.1, acc.2)
          | none => (acc.1, acc.2 ++ [c]))
        acc).1 ↔
      x ∈ acc.1 ∨ ∃ c ∈ cells, ∃ l, st.cell c = some l ∧ x ∈ l := by
  induction cells generalizing acc with
  | nil => simp
  | cons c t ih =>
      rw [List.foldl_cons]
      cases hcell : st.cell c with
      | some ids =>
          rw [ih]
          show x ∈ (ids.foldl insertId acc.1) ∨ _ ↔ _
          rw [mem_foldl_insertId]
          constructor
          · rintro ((hx | hx) | ⟨c1, hc1, l, hl, hxl⟩)
            · exact Or.inl hx
            · exact Or.inr ⟨c, List.mem_cons_self c t, ids, hcell, hx⟩
            · exact Or.inr ⟨c1, List.mem_cons_of_mem c hc1, l, hl, hxl⟩
          · rintro (hx | ⟨c1, hc1, l, hl, hxl⟩)
            · exact Or.inl (Or.inl hx)
            · rcases List.mem_cons.mp hc1 with rfl | hc1t
              · rw [hcell] at hl
                cases hl
                exact Or.inl (Or.inr hxl)
              · exact Or.inr ⟨c1, hc1t, l, hl, hxl⟩
      | none =>
          rw [ih]
          constructor
          · rintro (hx | ⟨c1, hc1, l, hl, hxl⟩)
            · exact Or.inl hx
            · exact Or.inr ⟨c1, List.mem_cons_of_mem c hc1, l, hl, hxl⟩
          · rintro (hx | ⟨c1, hc1, l, hl, hxl⟩)
            · exact Or.inl hx
            · rcases List.mem_cons.mp hc1 with rfl | hc1t
              · rw [hcell] at hl
                cases hl
              · exact Or.inr ⟨c1, hc1t, l, hl, hxl⟩

theorem fillCells_inner (issues : List Issue) (st : CacheState) (ids : List Nat)
    (dq w : Nat) :
    issues.foldl
        (fun acc2 issue =>
          (writeSummary acc2.1 (mkSummary issue), insertId acc2.2.1 issue.id,
            acc2.2.2.1, acc2.2.2.2 + 1))
        (st, ids, dq, w) =
      (issues.foldl (fun s i => writeSummary s (mkSummary i)) st,
        issues.foldl (fun l i => insertId l i.id) ids, dq, w + issues.length) := by
  induction issues generalizing st ids w with
  | nil => simp
  | cons a t ih =>
      rw [List.foldl_cons, ih]
      simp [Nat.add_comm, Nat.add_assoc, Nat.add_left_comm]

theorem sumWrites_cell (issues : List Issue) (st : CacheState) :
    (issues.foldl (fun s i => writeSummary s (mkSummary i)) st).cell = st.cell := by
  induction issues generalizing st with
  | nil => rfl
  | cons a t ih => rw [List.foldl_cons, ih]; rfl

theorem fillCells_cell (db : List Issue) (flag : Bool) (st : CacheState)
    (ids : List Nat) (dq w : Nat) (uncached : List (Int × Int)) (d : Int × Int) :
    ((fillCells db flag (st, ids, dq, w) uncached).1).cell d =
      if d ∈ uncached then some ((cellQuery db flag d).map (fun i => i.id))
      else st.cell d := by
  induction uncached generalizing st ids dq w with
  | nil => simp [fillCells]
  | cons c t ih =>
      rw [fillCells, List.foldl_cons, fillCells_inner]
      show ((fillCells db flag _ t).1).cell d = _
      rw [ih, sumWrites_cell]
      by_cases hdt : d ∈ t
      · simp [hdt]
      · by_cases hdc : d = c
        · subst hdc
          simp [hdt, writeCell]
        · have : d ∉ c :: t := by
            intro hmem
            rcases List.mem_cons.mp hmem with h | h
            · exact hdc h
            · exact hdt h
          simp [hdt, this, writeCell, hdc]

theorem writeCell_cc {db : List Issue} {flag : Bool} {st : CacheState}
    (hcc : CacheConsistent db flag st) (c : Int × Int) :
    CacheConsistent db flag
      (writeCell st c ((cellQuery db flag c).map (fun i => i.id))) := by
  constructor
  · intro d ids hd
    rw [writeCell] at hd
    by_cases hdc : d = c
    · simp only [hdc, if_pos rfl] at hd
      cases hd
      rw [hdc]
    · simp only [if_neg hdc] at hd
      exact hcc.1 d ids hd
  · intro i s hs
    exact hcc.2 i s hs

theorem writeSummary_cc {db : List Issue} (hnodup : (db.map Issue.id).Nodup)
    {flag : Bool} {st : CacheState} (hcc : CacheConsistent db flag st)
    {iss : Issue} (hmem : iss ∈ db) :
    CacheConsistent db flag (writeSummary st (mkSummary iss)) := by
  constructor
  · intro d ids hd
    exact hcc.1 d ids hd
  · intro i s hs
    rw [writeSummary] at hs
    by_cases hi : i = (mkSummary iss).id
    · simp only [hi, if_pos rfl] at hs
      cases hs
      refine ⟨iss, ?_, rfl⟩
      have : (mkSummary iss).id = iss.id := rfl
      rw [hi, this]
      exact find?_id_of_nodup hnodup hmem
    · simp only [if_neg hi] at hs
      exact hcc.2 i s hs

theorem sumWrites_cc {db : List Issue} (hnodup : (db.map Issue.id).Nodup)
    {flag : Bool} {issues : List Issue} (hsub : ∀ i ∈ issues, i ∈ db)
    {st : CacheState} (hcc : CacheConsistent db flag st) :
    CacheConsistent db flag
      (issues.foldl (fun s i => writeSummary s (mkSummary i)) st) := by
  induction issues generalizing st with
  | nil => exact hcc
  | cons a t ih =>
      rw [List.foldl_cons]
      exact ih (fun i hi => hsub i (List.mem_cons_of_mem a hi))
        (writeSummary_cc hnodup hcc (hsub a (List.mem_cons_self a t)))

theorem fillCells_cc {db : List Issue} (hnodup : (db.map Issue.id).Nodup)
    {flag : Bool} {st : CacheState} (hcc : CacheConsistent db flag st)
    (ids : List Nat) (dq w : Nat) (uncached : List (Int × Int)) :
    CacheConsistent db flag (fillCells db flag (st, ids, dq, w) uncached).1 := by
  induction uncached generalizing st ids dq w with
  | nil => exact hcc
  | cons c t ih =>
      rw [fillCells, List.foldl_cons, fillCells_inner]
      show CacheConsistent db flag (fillCells db flag _ t).1
      refine ih ?_ _ _ _
      exact sumWrites_cc hnodup
        (fun i hi => List.mem_of_mem_filter hi)
        (writeCell_cc hcc c)

theorem mem_fillCells_ids (db : List Issue) (flag : Bool) (st : CacheState)
    (ids : List Nat) (dq w : Nat) (uncached : List (Int × Int)) (x : Nat) :
    x ∈ (fillCells db flag (st, ids, dq, w) uncached).2.1 ↔
      x ∈ ids ∨ ∃ c ∈ uncached, x ∈ (cellQuery db flag c).map (fun i => i.id) := by
  induction uncached generalizing st ids dq w with
  | nil => simp [fillCells]
  | cons c t ih =>
      rw [fillCells, List.foldl_cons, fillCells_inner]
      show x ∈ (fillCells db flag _ t).2.1 ↔ _
      rw [ih]
      have hfold : (cellQuery db flag c).foldl (fun l i => insertId l i.id) ids =
          ((cellQuery db flag c).map (fun i => i.id)).foldl insertId ids := by
        rw [List.foldl_map]
      rw [hfold, mem_foldl_insertId]
      constructor
      · rintro ((hx | hx) | ⟨c1, hc1, hx⟩)
        · exact Or.inl hx
        · exact Or.inr ⟨c, List.mem_cons_self c t, hx⟩
        · exact Or.inr ⟨c1, List.mem_cons_of_mem c hc1, hx⟩
      · rintro (hx | ⟨c1, hc1, hx⟩)
        · exact Or.inl (Or.inl hx)
        · rcases List.mem_cons.mp hc1 with rfl | hc1t
          · exact Or.inl (Or.inr hx)
          · exact Or.inr ⟨c1, hc1t, hx⟩

theorem resolveIds_spec (db : List Issue) (flag : Bool) (a b c d : ℚ)
    (hnodup : (db.map Issue.id).Nodup) :
    ∀ (ids : List Nat) (st : CacheState), CacheConsistent db flag st →
      ∀ (res : List IssueSummary) (dq r w : Nat),
        (resolveIds db flag a b c d (st, res, dq, r, w) ids).2.1 =
          res ++ ids.filterMap (resolveId db flag a b c d) ∧
        CacheConsistent db flag (resolveIds db flag a b c d (st, res, dq, r, w) ids).1 := by
  intro ids
  induction ids with
  | nil => intro st hcc res dq r w; exact ⟨by simp [resolveIds], hcc⟩
  | cons i t ih =>
      intro st hcc res dq r w
      rw [resolveIds, List.foldl_cons]
      cases hsum : st.summary i with
      | some s =>
          obtain ⟨iss, hfind, rfl⟩ := hcc.2 i s hsum
          have hres : resolveId db flag a b c d i =
              filterStep flag a b c d (mkSummary iss) := by
            rw [resolveId, hfind]
          have := ih st hcc
            (pushFiltered flag a b c d res (mkSummary iss)) dq (r + 1) w
          rw [resolveIds] at this
          refine ⟨?_, this.2⟩
          rw [this.1, pushFiltered_eq, List.filterMap_cons, hres]
          cases hfs : filterStep flag a b c d (mkSummary iss) <;>
            simp [hfs]
      | none =>
          cases hfind : db.find? (fun x => x.id == i) with
          | some iss =>
              have hmem : iss ∈ db := List.mem_of_find?_eq_some hfind
              have hcc1 : CacheConsistent db flag (writeSummary st (mkSummary iss)) :=
                writeSummary_cc hnodup hcc hmem
              have hres : resolveId db flag a b c d i =
                  filterStep flag a b c d (mkSummary iss) := by
                rw [resolveId, hfind]
              have := ih (writeSummary st (mkSummary iss)) hcc1
                (pushFiltered flag a b c d res (mkSummary iss)) (dq + 1) (r + 1) (w + 1)
              rw [resolveIds] at this
              refine ⟨?_, this.2⟩
              rw [this.1, pushFiltered_eq, List.filterMap_cons, hres]
              cases hfs : filterStep flag a b c d (mkSummary iss) <;>
                simp [hfs]
          | none =>
              have hres : resolveId db flag a b c d i = none := by
                rw [resolveId, hfind]
              have := ih st hcc res (dq + 1) (r + 1) w
              rw [resolveIds] at this
              refine ⟨?_, this.2⟩
              rw [this.1, List.filterMap_cons, hres]

theorem emptyCache_cc (db : List Issue) (flag : Bool) :
    CacheConsistent db flag emptyCache := by
  constructor
  · intro c ids h
    cases h
  · intro i s h
    cases h

theorem getIssuesInBounds_result_eq (db : List Issue) (flag : Bool)
    (st : CacheState) (a b c d : ℚ)
    (hsmall : ¬ (getGridCellsForBounds a b c d).length > 100)
    (hnodup : (db.map Issue.id).Nodup) (hcc : CacheConsistent db flag st) :
    (getIssuesInBounds db st a b c d flag).result =
      ((fillCells db flag (st, (collectCells st (getGridCellsForBounds a b c d)).1, 0, 0)
          (collectCells st (getGridCellsForBounds a b c d)).2).2.1).filterMap
        (resolveId db flag a b c d) := by
  rw [getIssuesInBounds, if_neg hsmall]
  have hcc2 := fillCells_cc hnodup hcc
    (collectCells st (getGridCellsForBounds a b c d)).1 0 0
    (collectCells st (getGridCellsForBounds a b c d)).2
  have hspec := resolveIds_spec db flag a b c d hnodup
    ((fillCells db flag (st, (collectCells st (getGridCellsForBounds a b c d)).1, 0, 0)
        (collectCells st (getGridCellsForBounds a b c d)).2).2.1)
    ((fillCells db flag (st, (collectCells st (getGridCellsForBounds a b c d)).1, 0, 0)
        (collectCells st (getGridCellsForBounds a b c d)).2).1)
    hcc2 []
    ((fillCells db flag (st, (collectCells st (getGridCellsForBounds a b c d)).1, 0, 0)
        (collectCells st (getGridCellsForBounds a b c d)).2).2.2.1)
    ((getGridCellsForBounds a b c d).length)
    ((fillCells db flag (st, (collectCells st (getGridCellsForBounds a b c d)).1, 0, 0)
        (collectCells st (getGridCellsForBounds a b c d)).2).2.2.2)
  exact hspec.1

theorem mem_result_of_cc (db : List Issue) (flag : Bool)
    (hnodup : (db.map Issue.id).Nodup) {st : CacheState}
    (hcc : CacheConsistent db flag st) (a b c d : ℚ)
    (hsmall : ¬ (getGridCellsForBounds a b c d).length > 100) (s : IssueSummary) :
    s ∈ (getIssuesInBounds db st a b c d flag).result ↔
      ∃ i, (∃ q ∈ getGridCellsForBounds a b c d,
              i ∈ (cellQuery db flag q).map (fun x => x.id)) ∧
        resolveId db flag a b c d i = some s := by
  rw [getIssuesInBounds_result_eq db flag st a b c d hsmall hnodup hcc,
    List.mem_filterMap]
  constructor
  · rintro ⟨i, hi, hres⟩
    refine ⟨i, ?_, hres⟩
    rw [mem_fillCells_ids] at hi
    rcases hi with hi | ⟨q, hq, hiq⟩
    · rw [show (collectCells st (getGridCellsForBounds a b c d)).1 =
          ((getGridCellsForBounds a b c d).foldl
            (fun acc q =>
              match st.cell q with
              | some ids => (ids.foldl insertId acc.1, acc.2)
              | none => (acc.1, acc.2 ++ [q])) ([], [])).1 from rfl,
        mem_collectCells_fst] at hi
      rcases hi with hi | ⟨q, hq, l, hl, hil⟩
      · cases hi
      · refine ⟨q, hq, ?_⟩
        rw [hcc.1 q l hl] at hil
        exact hil
    · have : q ∈ getGridCellsForBounds a b c d := by
        have hq2 : q ∈ (collectCells st (getGridCellsForBounds a b c d)).2 := hq
        rw [show (collectCells st (getGridCellsForBounds a b c d)).2 =
            ((getGridCellsForBounds a b c d).foldl
              (fun acc q =>
                match st.cell q with
                | some ids => (ids.foldl insertId acc.1, acc.2)
                | none => (acc.1, acc.2 ++ [q])) ([], [])).2 from rfl,
          collectCells_snd, List.nil_append] at hq2
        exact List.mem_of_mem_filter hq2
      exact ⟨q, this, hiq⟩
  · rintro ⟨i, ⟨q, hq, hiq⟩, hres⟩
    refine ⟨i, ?_, hres⟩
    rw [mem_fillCells_ids]
    cases hcell : st.cell q with
    | some l =>
        left
        rw [show (collectCells st (getGridCellsForBounds a b c d)).1 =
            ((getGridCellsForBounds a b c d).foldl
              (fun acc q =>
                match st.cell q with
                | some ids => (ids.foldl insertId acc.1, acc.2)
                | none => (acc.1, acc.2 ++ [q])) ([], [])).1 from rfl,
          mem_collectCells_fst]
        refine Or.inr ⟨q, hq, l, hcell, ?_⟩
        rw [hcc.1 q l hcell]
        exact hiq
    | none =>
        right
        refine ⟨q, ?_, hiq⟩
        show q ∈ (collectCells st (getGridCellsForBounds a b c d)).2
        rw [show (collectCells st (getGridCellsForBounds a b c d)).2 =
            ((getGridCellsForBounds a b c d).foldl
              (fun acc q =>
                match st.cell q with
                | some ids => (ids.foldl insertId acc.1, acc.2)
                | none => (acc.1, acc.2 ++ [q])) ([], [])).2 from rfl,
          collectCells_snd, List.nil_append, List.mem_filter]
        exact ⟨hq, by rw [hcell]; rfl⟩

theorem cc_after_call (db : List Issue) (flag : Bool)
    (hnodup : (db.map Issue.id).Nodup) {st : CacheState}
    (hcc : CacheConsistent db flag st) (a b c d : ℚ) :
    CacheConsistent db flag (getIssuesInBounds db st a b c d flag).cache := by
  rw [getIssuesInBounds]
  split
  · exact hcc
  · have hcc2 := fillCells_cc hnodup hcc
      (collectCells st (getGridCellsForBounds a b c d)).1 0 0
      (collectCells st (getGridCellsForBounds a b c d)).2
    exact (resolveIds_spec db flag a b c d hnodup _ _ hcc2 [] _ _ _).2

theorem runCalls_cc (db : List Issue) (flag : Bool)
    (hnodup : (db.map Issue.id).Nodup) (ps : List QueryBox) :
    CacheConsistent db flag (runCalls db flag ps) := by
  rw [runCalls]
  have : ∀ (st : CacheState), CacheConsistent db flag st →
      CacheConsistent db flag
        (ps.foldl
          (fun st p =>
            (getIssuesInBounds db st p.minLat p.maxLat p.minLng p.maxLng flag).cache)
          st) := by
    induction ps with
    | nil => intro st hcc; exact hcc
    | cons p t ih =>
        intro st hcc
        rw [List.foldl_cons]
        exact ih _ (cc_after_call db flag hnodup hcc _ _ _ _)
  exact this emptyCache (emptyCache_cc db flag)

/-- C1 (amended): for a fixed issue set, `getIssuesInBounds` returns the same
summary set whether the covering cells are cold or warm, provided every prior
populating call used the same `includeResolved` flag as the current call (the
result does depend on the flag in effect when a cell was cached, see the
counterexample). -/
theorem getIssuesInBounds_cold_warm_equiv (db : List Issue)
    (hnodup : (db.map Issue.id).Nodup) (ps : List QueryBox) (q : QueryBox)
    (flag : Bool) (s : IssueSummary) :
    s ∈ (getIssuesInBounds db (runCalls db flag ps)
          q.minLat q.maxLat q.minLng q.maxLng flag).result ↔
    s ∈ (getIssuesInBounds db emptyCache
          q.minLat q.maxLat q.minLng q.maxLng flag).result := by
  by_cases hbig : (getGridCellsForBounds q.minLat q.maxLat q.minLng q.maxLng).length > 100
  · rw [getIssuesInBounds, if_pos hbig, getIssuesInBounds, if_pos hbig]
  · rw [mem_result_of_cc db flag hnodup (runCalls_cc db flag hnodup ps) _ _ _ _ hbig s,
      mem_result_of_cc db flag hnodup (emptyCache_cc db flag) _ _ _ _ hbig s]

/-- Witness for C1 (amended): a concrete store, a prior call warming the cell,
and the equivalence of the warm and cold results. -/
theorem getIssuesInBounds_cold_warm_equiv_witness :
    (([resolvedIssue] : List Issue).map Issue.id).Nodup ∧
    (∀ s : IssueSummary,
      s ∈ (getIssuesInBounds [resolvedIssue]
            (runCalls [resolvedIssue] true [⟨0, 1/100, 0, 1/100⟩])
            0 (1/100) 0 (1/100) true).result ↔
      s ∈ (getIssuesInBounds [resolvedIssue] emptyCache
            0 (1/100) 0 (1/100) true).result) := by
  have hnodup : (([resolvedIssue] : List Issue).map Issue.id).Nodup := by simp
  exact ⟨hnodup, fun s =>
    getIssuesInBounds_cold_warm_equiv [resolvedIssue] hnodup
      [⟨0, 1/100, 0, 1/100⟩] ⟨0, 1/100, 0, 1/100⟩ true s⟩

/-- C1 (counterexample): with a single resolved issue in the store, a
`getIssuesInBounds` call with `includeResolved = false` leaves the covering
cells warm with ID lists that omit the resolved issue; a subsequent call with
`includeResolved = true` over the warm cells returns the empty set, while the
same call over a cold cache returns the resolved issue's summary — so the
result depends on the flag in effect when the cells were cached. -/
theorem getIssuesInBounds_warm_flag_counterexample :
    (getIssuesInBounds [resolvedIssue]
        (getIssuesInBounds [resolvedIssue] emptyCache 0 (1/100) 0 (1/100) false).cache
        0 (1/100) 0 (1/100) true).result = [] ∧
    (getIssuesInBounds [resolvedIssue] emptyCache 0 (1/100) 0 (1/100) true).result =
      [mkSummary resolvedIssue] := by
  constructor
  · norm_num [getIssuesInBounds, getGridCellsForBounds, GRID_CELL_SIZE,
      intRange_of_le, intRange_of_gt, collectCells, fillCells, resolveIds,
      emptyCache, cellQuery, inCellRange, statusOk, resolvedIssue, writeCell,
      writeSummary, insertId, mkSummary, pushFiltered]
  · norm_num [getIssuesInBounds, getGridCellsForBounds, GRID_CELL_SIZE,
      intRange_of_le, intRange_of_gt, collectCells, fillCells, resolveIds,
      emptyCache, cellQuery, inCellRange, statusOk, resolvedIssue, writeCell,
      writeSummary, insertId, mkSummary, pushFiltered]

end IssueCache

namespace GraphImport

/-- C2 (amended): a failed external fetch still aborts the import with no new
rows written, but the import is not atomic in the claimed sense: the script
deletes every existing `GraphEdge` and `GraphNode` row before fetching, so
after a failed import the graph store is empty rather than unchanged. -/
theorem importGraph_fetch_failure_clears (uuidOf : Nat → String)
    (distFn : ℚ → ℚ → ℚ → ℚ → ℚ) (st : GraphState) :
    importGraph uuidOf distFn st (Except.error ()) =
      ({ nodes := [], edges := [] }, Except.error ()) := rfl

/-- C2 (counterexample): a concrete pre-existing node row and edge row are
present before an import whose fetch fails, and absent afterwards. -/
theorem importGraph_fetch_failure_counterexample :
    ((⟨"n1", 7, 0, 0⟩ : DBNode) ∈
        (⟨[⟨"n1", 7, 0, 0⟩], [⟨"n1", "n1", 5, 5, 1⟩]⟩ : GraphState).nodes ∧
      (⟨"n1", "n1", 5, 5, 1⟩ : DBEdge) ∈
        (⟨[⟨"n1", 7, 0, 0⟩], [⟨"n1", "n1", 5, 5, 1⟩]⟩ : GraphState).edges) ∧
    (importGraph (fun _ => "u") (fun _ _ _ _ => 0)
        ⟨[⟨"n1", 7, 0, 0⟩], [⟨"n1", "n1", 5, 5, 1⟩]⟩ (Except.error ())).2 =
      Except.error () ∧
    (⟨"n1", 7, 0, 0⟩ : DBNode) ∉
      (importGraph (fun _ => "u") (fun _ _ _ _ => 0)
        ⟨[⟨"n1", 7, 0, 0⟩], [⟨"n1", "n1", 5, 5, 1⟩]⟩ (Except.error ())).1.nodes ∧
    (⟨"n1", "n1", 5, 5, 1⟩ : DBEdge) ∉
      (importGraph (fun _ => "u") (fun _ _ _ _ => 0)
        ⟨[⟨"n1", 7, 0, 0⟩], [⟨"n1", "n1", 5, 5, 1⟩]⟩ (Except.error ())).1.edges := by
  refine ⟨⟨List.mem_singleton.mpr rfl, List.mem_singleton.mpr rfl⟩, rfl, ?_, ?_⟩
  · show (⟨"n1", 7, 0, 0⟩ : DBNode) ∉ ([] : List DBNode)
    simp
  · show (⟨"n1", "n1", 5, 5, 1⟩ : DBEdge) ∉ ([] : List DBEdge)
    simp

end GraphImport

namespace Pathfinding

theorem buildAdjacencyList_eq (edges : List PathEdge) (k : String) :
    buildAdjacencyList edges k =
      (edges.filter fun e => decide (k = e.startNodeId)).map entryOf := by
  have go : ∀ (l : List PathEdge) (adj : String → List AdjEntry),
      (l.foldl
        (fun adj e => fun q => if q = e.startNodeId then adj q ++ [entryOf e] else adj q)
        adj) k =
        adj k ++ (l.filter fun e => decide (k = e.startNodeId)).map entryOf := by
    intro l
    induction l with
    | nil => intro adj; simp
    | cons e t ih =>
        intro adj
        rw [List.foldl_cons, ih, List.filter_cons]
        by_cases hk : k = e.startNodeId
        · simp [hk]
        · simp [hk]
  rw [buildAdjacencyList, go]
  simp

/-- C4: every adjacency entry the pathfinder builds carries traversal cost
`edge.distance * effectivePenalty edge`, where the effective penalty is the
stored penalty unless that is `0`, in which case it is `1`; each edge
contributes its entry to its start node's list, every entry arises from such
an edge, and an edge with penalty `0` contributes cost equal to its raw
distance, never `0`. -/
theorem buildAdjacencyList_cost (edges : List PathEdge) :
    (∀ e ∈ edges, entryOf e ∈ buildAdjacencyList edges e.startNodeId ∧
        (entryOf e).cost = e.distance * (if e.penalty = 0 then 1 else e.penalty)) ∧
    (∀ k, ∀ a ∈ buildAdjacencyList edges k,
        ∃ e ∈ edges, e.startNodeId = k ∧ a = entryOf e ∧
          a.cost = e.distance * (if e.penalty = 0 then 1 else e.penalty)) ∧
    (∀ e ∈ edges, e.penalty = 0 → (entryOf e).cost = e.distance) := by
  refine ⟨?_, ?_, ?_⟩
  · intro e he
    constructor
    · rw [buildAdjacencyList_eq]
      exact List.mem_map_of_mem entryOf
        (List.mem_filter.mpr ⟨he, by simp⟩)
    · rfl
  · intro k a ha
    rw [buildAdjacencyList_eq] at ha
    obtain ⟨e, he, rfl⟩ := List.mem_map.mp ha
    have hk : k = e.startNodeId := by
      have := (List.mem_filter.mp he).2
      simpa using this
    exact ⟨e, (List.mem_filter.mp he).1, hk.symm, rfl, rfl⟩
  · intro e he h0
    show e.distance * effectivePenalty e = e.distance
    rw [effectivePenalty, if_pos h0, mul_one]

/-- C5 (amended): the two failure modes are not distinguishable by the
caller: when either endpoint fails to snap (`NodeNotFound`) `findPath`
returns `none`, and when the search exhausts its queue without reaching the
destination (`NoPathFound`) the loop also returns `none` — the same
observable value. -/
theorem findPath_failures_same_value :
    (∀ (h : ℚ → ℚ → ℚ → ℚ → ℚ) (nodes : List PathNode) (edges : List PathEdge)
        (a b c d : ℚ),
      (findNearestNode h nodes a b = none ∨ findNearestNode h nodes c d = none) →
        findPath h nodes edges a b c d = none) ∧
    (∀ (h : ℚ → ℚ → ℚ → ℚ → ℚ) (nm : String → Option PathNode)
        (adj : String → List AdjEntry) (n : Nat) (endN : PathNode)
        (fuel : Nat) (s : AStarState) (visited : List String),
      astarLoop h nm adj n endN fuel [] s visited = none) := by
  constructor
  · intro h nodes edges a b c d hfail
    rw [findPath]
    rcases hfail with hf | hf
    · rw [hf]
    · rw [hf]
      cases findNearestNode h nodes a b <;> rfl
  · intro h nm adj n endN fuel s visited
    rw [astarLoop]
    split
    · rfl
    · rfl

/-- Witness for C5 (amended) at a concrete empty graph. -/
theorem findPath_failures_same_value_witness :
    findPath (fun _ _ _ _ => 0) [] [] 0 0 0 0 = none := by
  have hsnap : findNearestNode (fun _ _ _ _ => (0:ℚ)) [] 0 0 = none := rfl
  exact findPath_failures_same_value.1 _ [] [] 0 0 0 0 (Or.inl hsnap)

/-- C5 (counterexample): the two failure cases do not yield distinct
observable values.  On the empty graph snapping fails and `findPath` returns
`none`; on a two-node edgeless graph both endpoints snap successfully, the
search exhausts, and `findPath` returns the same `none`. -/
theorem findPath_failures_counterexample :
    findPath (fun _ _ _ _ => 0) [] [] 0 0 0 0 = none ∧
    (findNearestNode (fun _ _ _ _ => 0) [⟨"a", 0, 0⟩, ⟨"b", 1, 1⟩] 0 0 =
      some ⟨"a", 0, 0⟩) ∧
    (findNearestNode (fun _ _ _ _ => 0) [⟨"a", 0, 0⟩, ⟨"b", 1, 1⟩] 1 1 =
      some ⟨"b", 1, 1⟩) ∧
    findPath (fun _ _ _ _ => 0) [⟨"a", 0, 0⟩, ⟨"b", 1, 1⟩] [] 0 0 1 1 = none := by
  refine ⟨rfl, ?_, ?_, ?_⟩
  · norm_num [findNearestNode, findNearestNodeAux, searchRadii, nodesInBox,
      pickClosest]
  · norm_num [findNearestNode, findNearestNodeAux, searchRadii, nodesInBox,
      pickClosest]
  · norm_num [findPath, findNearestNode, findNearestNodeAux, searchRadii,
      nodesInBox, pickClosest, astarLoop, popMin, relaxAll, buildAdjacencyList,
      initState]
    intro hab
    exact absurd hab (by decide)

theorem nodesInBox_mono (nodes : List PathNode) (lat lng : ℚ) {r R : ℚ}
    (hrR : r ≤ R) : ∀ n ∈ nodesInBox nodes lat lng r, n ∈ nodesInBox nodes lat lng R := by
  intro n hn
  rw [nodesInBox, List.mem_filter] at hn ⊢
  refine ⟨hn.1, ?_⟩
  have h2 := hn.2
  simp only [Bool.and_eq_true, decide_eq_true_eq] at h2 ⊢
  obtain ⟨⟨⟨h1, h2⟩, h3⟩, h4⟩ := h2
  refine ⟨⟨⟨by linarith, by linarith⟩, by linarith⟩, by linarith⟩

theorem pickClosest_isSome (h : ℚ → ℚ → ℚ → ℚ → ℚ) (lat lng : ℚ) :
    ∀ (l : List PathNode) (b : PathNode),
      ∃ n, pickClosest h lat lng (some b) l = some n := by
  intro l
  induction l with
  | nil => intro b; exact ⟨b, rfl⟩
  | cons c t ih =>
      intro b
      rw [pickClosest]
      split
      · exact ih c
      · exact ih b

theorem pickClosest_spec (h : ℚ → ℚ → ℚ → ℚ → ℚ) (lat lng : ℚ) :
    ∀ (l : List PathNode) (b n : PathNode),
      pickClosest h lat lng (some b) l = some n →
      (n = b ∨ n ∈ l) ∧
        h lat lng n.latitude n.longitude ≤ h lat lng b.latitude b.longitude ∧
        ∀ m ∈ l, h lat lng n.latitude n.longitude ≤ h lat lng m.latitude m.longitude := by
  intro l
  induction l with
  | nil =>
      intro b n hn
      rw [pickClosest] at hn
      cases hn
      exact ⟨Or.inl rfl, le_refl _, by intro m hm; cases hm⟩
  | cons c t ih =>
      intro b n hn
      rw [pickClosest] at hn
      split at hn
      · rename_i hlt
        obtain ⟨hmem, hle, hall⟩ := ih c n hn
        refine ⟨?_, ?_, ?_⟩
        · rcases hmem with rfl | hmem
          · exact Or.inr (List.mem_cons_self _ _)
          · exact Or.inr (List.mem_cons_of_mem _ hmem)
        · exact le_trans hle (le_of_lt hlt)
        · intro m hm
          rcases List.mem_cons.mp hm with rfl | hm
          · exact hle
          · exact hall m hm
      · rename_i hnlt
        obtain ⟨hmem, hle, hall⟩ := ih b n hn
        refine ⟨?_, hle, ?_⟩
        · rcases hmem with rfl | hmem
          · exact Or.inl rfl
          · exact Or.inr (List.mem_cons_of_mem _ hmem)
        · intro m hm
          rcases List.mem_cons.mp hm with rfl | hm
          · exact le_trans hle (le_of_not_lt hnlt)
          · exact hall m hm

theorem findNearestNodeAux_spec (h : ℚ → ℚ → ℚ → ℚ → ℚ)
    (nodes : List PathNode) (lat lng : ℚ) :
    ∀ radii : List ℚ,
      (findNearestNodeAux h nodes lat lng radii = none ↔
        ∀ r ∈ radii, nodesInBox nodes lat lng r = []) ∧
      (∀ n, findNearestNodeAux h nodes lat lng radii = some n →
        ∃ pre r post, radii = pre ++ r :: post ∧
          (∀ r2 ∈ pre, nodesInBox nodes lat lng r2 = []) ∧
          nodesInBox nodes lat lng r ≠ [] ∧
          n ∈ nodesInBox nodes lat lng r ∧
          ∀ m ∈ nodesInBox nodes lat lng r,
            h lat lng n.latitude n.longitude ≤ h lat lng m.latitude m.longitude) := by
  intro radii
  induction radii with
  | nil =>
      constructor
      · constructor
        · intro _ r hr
          cases hr
        · intro _
          rfl
      · intro n hn
        cases hn
  | cons r rs ih =>
      rw [findNearestNodeAux]
      by_cases hemp : (nodesInBox nodes lat lng r).isEmpty
      · rw [if_pos hemp]
        have hnil : nodesInBox nodes lat lng r = [] := List.isEmpty_iff.mp hemp
        constructor
        · rw [ih.1]
          constructor
          · intro hall r2 hr2
            rcases List.mem_cons.mp hr2 with rfl | hr2
            · exact hnil
            · exact hall r2 hr2
          · intro hall r2 hr2
            exact hall r2 (List.mem_cons_of_mem r hr2)
        · intro n hn
          obtain ⟨pre, r1, post, heq, hpre, hne, hmem, hmin⟩ := ih.2 n hn
          exact ⟨r :: pre, r1, post, by rw [heq]; rfl,
            by
              intro r2 hr2
              rcases List.mem_cons.mp hr2 with rfl | hr2
              · exact hnil
              · exact hpre r2 hr2,
            hne, hmem, hmin⟩
      · rw [if_neg hemp]
        have hne : nodesInBox nodes lat lng r ≠ [] := by
          intro hnil
          rw [hnil] at hemp
          exact hemp rfl
        constructor
        · constructor
          · intro hnone
            cases hbox : nodesInBox nodes lat lng r with
            | nil => exact absurd hbox hne
            | cons c cs =>
                rw [hbox] at hnone
                simp only [pickClosest] at hnone
                obtain ⟨n, hn⟩ := pickClosest_isSome h lat lng cs c
                rw [hn] at hnone
                cases hnone
          · intro hall
            exact absurd (hall r (List.mem_cons_self r rs)) hne
        · intro n hn
          refine ⟨[], r, rs, rfl, ?_, hne, ?_, ?_⟩
          · intro r2 hr2
            cases hr2
          · cases hbox : nodesInBox nodes lat lng r with
            | nil => exact absurd hbox hne
            | cons c cs =>
                rw [hbox] at hn
                simp only [pickClosest] at hn
                obtain ⟨hmem, _, _⟩ := pickClosest_spec h lat lng cs c n hn
                rcases hmem with rfl | hmem
                · exact List.mem_cons_self _ _
                · exact List.mem_cons_of_mem _ hmem
          · cases hbox : nodesInBox nodes lat lng r with
            | nil => exact absurd hbox hne
            | cons c cs =>
                rw [hbox] at hn
                simp only [pickClosest] at hn
                obtain ⟨_, hlec, hall⟩ := pickClosest_spec h lat lng cs c n hn
                intro m hm
                rcases List.mem_cons.mp hm with rfl | hm
                · exact hlec
                · exact hall m hm

/-- C6: endpoint snapping tries the radii `0.001, 0.005, 0.01, 0.05` in
increasing order; at the first radius whose box query returns any node it
returns a node of that box minimizing the heuristic (great-circle) distance
to the query point, and it returns `null` exactly when no node lies within
the box of the largest radius `0.05`. -/
theorem findNearestNode_spec (h : ℚ → ℚ → ℚ → ℚ → ℚ) (nodes : List PathNode)
    (lat lng : ℚ) :
    (findNearestNode h nodes lat lng = none ↔
      nodesInBox nodes lat lng (5/100) = []) ∧
    (∀ n, findNearestNode h nodes lat lng = some n →
      ∃ r ∈ searchRadii,
        (∀ r2 ∈ searchRadii, r2 < r → nodesInBox nodes lat lng r2 = []) ∧
        nodesInBox nodes lat lng r ≠ [] ∧
        n ∈ nodesInBox nodes lat lng r ∧
        ∀ m ∈ nodesInBox nodes lat lng r,
          h lat lng n.latitude n.longitude ≤ h lat lng m.latitude m.longitude) := by
  have haux := findNearestNodeAux_spec h nodes lat lng searchRadii
  constructor
  · rw [findNearestNode, haux.1]
    constructor
    · intro hall
      exact hall (5/100) (by norm_num [searchRadii])
    · intro hbig r hr
      have hle : r ≤ 5/100 := by
        simp only [searchRadii, List.mem_cons, List.not_mem_nil, or_false] at hr
        rcases hr with rfl | rfl | rfl | rfl <;> norm_num
      rw [List.eq_nil_iff_forall_not_mem]
      intro n hn
      have := nodesInBox_mono nodes lat lng hle n hn
      rw [hbig] at this
      cases this
  · intro n hn
    rw [findNearestNode] at hn
    obtain ⟨pre, r, post, heq, hpre, hne, hmem, hmin⟩ := haux.2 n hn
    refine ⟨r, by rw [heq]; exact List.mem_append_right pre (List.mem_cons_self r post),
      ?_, hne, hmem, hmin⟩
    intro r2 hr2 hlt
    have hsorted : searchRadii.Pairwise (fun a b => a < b) := by
      norm_num [searchRadii, List.pairwise_cons]
    rw [heq] at hsorted hr2
    rcases List.mem_append.mp hr2 with hin | hin
    · exact hpre r2 hin
    · rcases List.mem_cons.mp hin with rfl | hin
      · exact absurd hlt (lt_irrefl r2)
      · have hp := List.pairwise_append.mp hsorted
        have hrpost := (List.pairwise_cons.mp hp.2.1).1
        exact absurd hlt (not_lt.mpr (le_of_lt (hrpost r2 hin)))

/-- Witness for C6: a graph whose only node is found at the second radius. -/
theorem findNearestNode_spec_witness :
    findNearestNode (fun _ _ c d => c + d) [⟨"a", 3/1000, 0⟩] 0 0 =
      some ⟨"a", 3/1000, 0⟩ ∧
    ∃ r ∈ searchRadii,
      (∀ r2 ∈ searchRadii, r2 < r →
        nodesInBox [⟨"a", 3/1000, 0⟩] 0 0 r2 = []) ∧
      nodesInBox [⟨"a", 3/1000, 0⟩] 0 0 r ≠ [] ∧
      (⟨"a", 3/1000, 0⟩ : PathNode) ∈ nodesInBox [⟨"a", 3/1000, 0⟩] 0 0 r ∧
      ∀ m ∈ nodesInBox [⟨"a", 3/1000, 0⟩] 0 0 r,
        (fun _ _ c d => c + d : ℚ → ℚ → ℚ → ℚ → ℚ) 0 0
            (⟨"a", 3/1000, 0⟩ : PathNode).latitude
            (⟨"a", 3/1000, 0⟩ : PathNode).longitude ≤
          (fun _ _ c d => c + d : ℚ → ℚ → ℚ → ℚ → ℚ) 0 0 m.latitude m.longitude := by
  have hfound : findNearestNode (fun _ _ c d => c + d) [⟨"a", 3/1000, 0⟩] 0 0 =
      some ⟨"a", 3/1000, 0⟩ := by
    norm_num [findNearestNode, findNearestNodeAux, searchRadii, nodesInBox,
      pickClosest]
  exact ⟨hfound,
    (findNearestNode_spec (fun _ _ c d => c + d) [⟨"a", 3/1000, 0⟩] 0 0).2
      ⟨"a", 3/1000, 0⟩ hfound⟩

/-- C8: the A* bookkeeping treats an absent `gScore` as infinite, never as
zero: no relaxation happens out of a node without a score, a finite tentative
score always beats an absent neighbor score, records are updated only on a
strictly lower tentative cost, a zero-cost self-loop entry never changes any
recorded value, and a node no edge starts from has an empty adjacency list
(and relaxing an empty list changes nothing) rather than being an error. -/
theorem astar_relaxation_guards :
    (∀ (h : ℚ → ℚ → ℚ → ℚ → ℚ) (nm : String → Option PathNode)
        (endN : PathNode) (cur : String) (s : AStarState) (q : List QueueItem)
        (nb : AdjEntry), s.gScore cur = none →
      relaxStep h nm endN cur (s, q) nb = (s, q)) ∧
    (∀ (h : ℚ → ℚ → ℚ → ℚ → ℚ) (nm : String → Option PathNode)
        (endN : PathNode) (cur : String) (s : AStarState) (q : List QueueItem)
        (nb : AdjEntry) (g gn : ℚ), s.gScore cur = some g →
      s.gScore nb.nodeId = some gn → ¬ (g + nb.cost < gn) →
      relaxStep h nm endN cur (s, q) nb = (s, q)) ∧
    (∀ (h : ℚ → ℚ → ℚ → ℚ → ℚ) (nm : String → Option PathNode)
        (endN : PathNode) (cur : String) (s : AStarState) (q : List QueueItem)
        (nb : AdjEntry) (g : ℚ), s.gScore cur = some g →
      s.gScore nb.nodeId = none →
      (relaxStep h nm endN cur (s, q) nb).1.gScore nb.nodeId = some (g + nb.cost) ∧
      (relaxStep h nm endN cur (s, q) nb).1.cameFrom nb.nodeId = some cur) ∧
    (∀ (h : ℚ → ℚ → ℚ → ℚ → ℚ) (nm : String → Option PathNode)
        (endN : PathNode) (cur : String) (s : AStarState) (q : List QueueItem)
        (nb : AdjEntry), nb.nodeId = cur → nb.cost = 0 →
      relaxStep h nm endN cur (s, q) nb = (s, q)) ∧
    (∀ (edges : List PathEdge) (k : String),
      (∀ e ∈ edges, e.startNodeId ≠ k) → buildAdjacencyList edges k = []) ∧
    (∀ (h : ℚ → ℚ → ℚ → ℚ → ℚ) (nm : String → Option PathNode)
        (endN : PathNode) (cur : String) (s : AStarState) (q : List QueueItem),
      relaxAll h nm endN cur [] s q = (s, q)) := by
  refine ⟨?_, ?_, ?_, ?_, ?_, ?_⟩
  · intro h nm endN cur s q nb hnone
    rw [relaxStep, hnone]
  · intro h nm endN cur s q nb g gn hg hgn hnlt
    have hdec : decide (g + nb.cost < gn) = false := decide_eq_false hnlt
    simp [relaxStep, hg, hgn, hdec]
  · intro h nm endN cur s q nb g hg hgn
    simp only [relaxStep, hg, hgn, if_pos]
    cases nm nb.nodeId <;> simp
  · intro h nm endN cur s q nb hself hcost
    cases hg : s.gScore cur with
    | none => simp [relaxStep, hg]
    | some g => simp [relaxStep, hg, hself, hcost]
  · intro edges k hk
    rw [buildAdjacencyList_eq]
    have : edges.filter (fun e => decide (k = e.startNodeId)) = [] := by
      rw [List.filter_eq_nil_iff]
      intro e he
      simp only [decide_eq_true_eq]
      intro hke
      exact hk e he hke.symm
    rw [this]
    rfl
  · intro h nm endN cur s q
    rfl

/-- Witness for C8 on concrete states exercising each guard. -/
theorem astar_relaxation_guards_witness :
    ((initState "a").gScore "x" = none ∧
      relaxStep (fun _ _ _ _ => 0) (fun _ => none) ⟨"z", 0, 0⟩ "x"
        (initState "a", []) ⟨"b", 1, 1, "e"⟩ = (initState "a", [])) ∧
    ((initState "a").gScore "a" = some 0 ∧
      relaxStep (fun _ _ _ _ => 0) (fun _ => none) ⟨"z", 0, 0⟩ "a"
        (initState "a", []) ⟨"a", 0, 0, "e"⟩ = (initState "a", [])) ∧
    buildAdjacencyList [⟨"e", "a", "b", 1, 1, 1⟩] "zz" = [] := by
  have h1 : (initState "a").gScore "x" = none := by
    simp [initState]
  have h2 : (initState "a").gScore "a" = some 0 := by
    simp [initState]
  refine ⟨⟨h1, ?_⟩, ⟨h2, ?_⟩, ?_⟩
  · exact astar_relaxation_guards.1 _ _ _ _ _ _ _ h1
  · exact astar_relaxation_guards.2.2.2.1 _ _ _ _ _ _ _ rfl rfl
  · exact astar_relaxation_guards.2.2.2.2.1 _ _
      (by intro e he; rw [List.mem_singleton.mp he]; decide)

theorem popMin_ne_none (q : List QueueItem) (hq : q ≠ []) : popMin q ≠ none := by
  cases q with
  | nil => exact absurd rfl hq
  | cons x xs =>
      rw [popMin]
      cases popMin xs with
      | none => simp
      | some p =>
          obtain ⟨m, rest⟩ := p
          by_cases hle : x.fScore ≤ m.fScore
          · simp [hle]
          · simp [hle]

theorem popMin_perm (q : List QueueItem) (cur : QueueItem)
    (rest : List QueueItem) (hpop : popMin q = some (cur, rest)) :
    q.Perm (cur :: rest) := by
  induction q generalizing cur rest with
  | nil => cases hpop
  | cons x xs ih =>
      rw [popMin] at hpop
      cases hp : popMin xs with
      | none =>
          rw [hp] at hpop
          have hxs : xs = [] := by
            cases hxs2 : xs with
            | nil => rfl
            | cons y ys =>
                rw [hxs2] at hp
                exact absurd hp (popMin_ne_none (y :: ys) (by simp))
          change some (x, ([] : List QueueItem)) = some (cur, rest) at hpop
          cases hpop
          rw [hxs]
      | some p =>
          obtain ⟨m, rest2⟩ := p
          rw [hp] at hpop
          change (if x.fScore ≤ m.fScore then some (x, xs)
            else some (m, x :: rest2)) = some (cur, rest) at hpop
          split at hpop
          · cases hpop
            exact List.Perm.refl _
          · cases hpop
            have hperm := ih cur rest2 hp
            exact (hperm.cons x).trans (List.Perm.swap cur x rest2)

theorem popMin_min (q : List QueueItem) (cur : QueueItem)
    (rest : List QueueItem) (hpop : popMin q = some (cur, rest)) :
    ∀ x ∈ q, cur.fScore ≤ x.fScore := by
  induction q generalizing cur rest with
  | nil => cases hpop
  | cons x xs ih =>
      rw [popMin] at hpop
      cases hp : popMin xs with
      | none =>
          rw [hp] at hpop
          have hxs : xs = [] := by
            cases hxs2 : xs with
            | nil => rfl
            | cons y ys =>
                rw [hxs2] at hp
                exact absurd hp (popMin_ne_none (y :: ys) (by simp))
          change some (x, ([] : List QueueItem)) = some (cur, rest) at hpop
          cases hpop
          intro z hz
          rw [hxs] at hz
          rw [List.mem_singleton.mp hz]
      | some p =>
          obtain ⟨m, rest2⟩ := p
          rw [hp] at hpop
          change (if x.fScore ≤ m.fScore then some (x, xs)
            else some (m, x :: rest2)) = some (cur, rest) at hpop
          split at hpop
          · rename_i hle
            cases hpop
            intro z hz
            rcases List.mem_cons.mp hz with rfl | hz
            · exact le_refl _
            · exact le_trans hle (ih m rest2 hp z hz)
          · rename_i hnle
            cases hpop
            intro z hz
            rcases List.mem_cons.mp hz with rfl | hz
            · exact le_of_lt (lt_of_not_le hnle)
            · exact ih cur rest2 hp z hz

theorem reconstructPath_none (nm : String → Option PathNode)
    (cf : String → Option String) (fuel : Nat) (acc : List Coord) :
    reconstructPath nm cf fuel none acc = acc := by
  rw [reconstructPath]
  split
  · rfl
  · rfl

theorem reconstructPath_length_mono (nm : String → Option PathNode)
    (cf : String → Option String) :
    ∀ (fuel : Nat) (nid : Option String) (acc : List Coord),
      acc.length ≤ (reconstructPath nm cf fuel nid acc).length := by
  intro fuel
  induction fuel using Nat.strong_induction_on with
  | _ fuel ih =>
      intro nid acc
      rw [reconstructPath.eq_def]
      split
      · exact le_refl _
      · rename_i hfz
        cases nid with
        | none => exact le_refl _
        | some nid =>
            have hlt : fuel - 1 < fuel := by omega
            cases hnm : nm nid with
            | some n =>
                refine le_trans ?_ (ih (fuel - 1) hlt (cf nid) _)
                simp [hnm]
            | none =>
                refine le_trans ?_ (ih (fuel - 1) hlt (cf nid) _)
                simp [hnm]

theorem findNearestNode_mem (h : ℚ → ℚ → ℚ → ℚ → ℚ) (nodes : List PathNode)
    (lat lng : ℚ) (n : PathNode) (hn : findNearestNode h nodes lat lng = some n) :
    n ∈ nodes := by
  obtain ⟨pre, r, post, _, _, _, hmem, _⟩ :=
    (findNearestNodeAux_spec h nodes lat lng searchRadii).2 n hn
  rw [nodesInBox] at hmem
  exact List.mem_of_mem_filter hmem

theorem buildNodeMap_isSome_iff (nodes : List PathNode) (k : String) :
    (buildNodeMap nodes k).isSome ↔ ∃ n ∈ nodes, n.id = k := by
  have go : ∀ (l : List PathNode) (m : String → Option PathNode),
      ((l.foldl (fun m n => fun q => if q = n.id then some n else m q) m) k).isSome ↔
        (m k).isSome ∨ ∃ n ∈ l, n.id = k := by
    intro l
    induction l with
    | nil => intro m; simp
    | cons n t ih =>
        intro m
        rw [List.foldl_cons, ih]
        by_cases hk : k = n.id
        · simp [hk]
        · simp only [if_neg hk]
          constructor
          · rintro (hm | hx)
            · exact Or.inl hm
            · exact Or.inr (by
                obtain ⟨x, hx1, hx2⟩ := hx
                exact ⟨x, List.mem_cons_of_mem n hx1, hx2⟩)
          · rintro (hm | ⟨x, hx1, hx2⟩)
            · exact Or.inl hm
            · rcases List.mem_cons.mp hx1 with rfl | hx1
              · exact absurd hx2.symm hk
              · exact Or.inr ⟨x, hx1, hx2⟩
  rw [buildNodeMap, go]
  simp

theorem relaxStep_shape (h : ℚ → ℚ → ℚ → ℚ → ℚ) (nm : String → Option PathNode)
    (endN : PathNode) (cur : String) (s : AStarState) (q : List QueueItem)
    (nb : AdjEntry) :
    (s.gScore cur = none ∧ relaxStep h nm endN cur (s, q) nb = (s, q)) ∨
    (∃ g gn, s.gScore cur = some g ∧ s.gScore nb.nodeId = some gn ∧
      ¬ g + nb.cost < gn ∧ relaxStep h nm endN cur (s, q) nb = (s, q)) ∨
    (∃ g, s.gScore cur = some g ∧
      (∀ gn, s.gScore nb.nodeId = some gn → g + nb.cost < gn) ∧
      (relaxStep h nm endN cur (s, q) nb).1.gScore =
        (fun k => if k = nb.nodeId then some (g + nb.cost) else s.gScore k) ∧
      (relaxStep h nm endN cur (s, q) nb).1.cameFrom =
        (fun k => if k = nb.nodeId then some cur else s.cameFrom k) ∧
      (relaxStep h nm endN cur (s, q) nb).1.distanceFrom =
        (fun k => if k = nb.nodeId then
            some ((s.distanceFrom cur).getD 0 + nb.distance)
          else s.distanceFrom k) ∧
      ((nm nb.nodeId = none ∧ (relaxStep h nm endN cur (s, q) nb).2 = q) ∨
        (∃ nbNode, nm nb.nodeId = some nbNode ∧
          (relaxStep h nm endN cur (s, q) nb).2 = q ++
            [⟨nb.nodeId, g + nb.cost +
              h nbNode.latitude nbNode.longitude endN.latitude endN.longitude⟩]))) := by
  cases hg : s.gScore cur with
  | none =>
      refine Or.inl ⟨rfl, ?_⟩
      rw [relaxStep, hg]
  | some g =>
      cases hgn : s.gScore nb.nodeId with
      | none =>
          refine Or.inr (Or.inr ⟨g, rfl, ?_, ?_⟩)
          · intro gn hgn2
            cases hgn2
          · cases hnm : nm nb.nodeId with
            | none =>
                refine ⟨?_, ?_, ?_, Or.inl ⟨rfl, ?_⟩⟩ <;>
                  simp [relaxStep, hg, hgn, hnm]
            | some nbNode =>
                refine ⟨?_, ?_, ?_, Or.inr ⟨nbNode, rfl, ?_⟩⟩ <;>
                  simp [relaxStep, hg, hgn, hnm]
      | some gn =>
          by_cases hlt : g + nb.cost < gn
          · refine Or.inr (Or.inr ⟨g, rfl, ?_, ?_⟩)
            · intro gn2 hgn2
              cases hgn2
              exact hlt
            · cases hnm : nm nb.nodeId with
              | none =>
                  refine ⟨?_, ?_, ?_, Or.inl ⟨rfl, ?_⟩⟩ <;>
                    simp [relaxStep, hg, hgn, hnm, hlt]
              | some nbNode =>
                  refine ⟨?_, ?_, ?_, Or.inr ⟨nbNode, rfl, ?_⟩⟩ <;>
                    simp [relaxStep, hg, hgn, hnm, hlt]
          · refine Or.inr (Or.inl ⟨g, gn, rfl, rfl, hlt, ?_⟩)
            simp [relaxStep, hg, hgn, hlt]

theorem relaxAll_reach (h : ℚ → ℚ → ℚ → ℚ → ℚ) (nm : String → Option PathNode)
    (endN : PathNode) (startId cur : String) (hcur : (nm cur).isSome) :
    ∀ (L : List AdjEntry) (s : AStarState) (q : List QueueItem),
      (∀ it ∈ q, (nm it.nodeId).isSome) →
      (∀ it ∈ q, it.nodeId ≠ startId → (s.cameFrom it.nodeId).isSome) →
      (∀ n u, s.cameFrom n = some u → (nm u).isSome) →
      (∀ it ∈ (relaxAll h nm endN cur L s q).2, (nm it.nodeId).isSome) ∧
      (∀ it ∈ (relaxAll h nm endN cur L s q).2, it.nodeId ≠ startId →
        ((relaxAll h nm endN cur L s q).1.cameFrom it.nodeId).isSome) ∧
      (∀ n u, (relaxAll h nm endN cur L s q).1.cameFrom n = some u →
        (nm u).isSome) := by
  intro L
  induction L with
  | nil =>
      intro s q h1 h2 h3
      exact ⟨h1, h2, h3⟩
  | cons e L ih =>
      intro s q h1 h2 h3
      rw [relaxAll, List.foldl_cons]
      rcases relaxStep_shape h nm endN cur s q e with
        ⟨_, heq⟩ | ⟨g, gn, _, _, _, heq⟩ |
        ⟨g, hg, himp, hgs, hcf, hdf, hq⟩
      · rw [heq]
        exact ih s q h1 h2 h3
      · rw [heq]
        exact ih s q h1 h2 h3
      · have hq1 : ∀ it ∈ (relaxStep h nm endN cur (s, q) e).2, (nm it.nodeId).isSome := by
          rcases hq with ⟨_, hq2⟩ | ⟨nbNode, hnm, hq2⟩
          · rw [hq2]
            exact h1
          · rw [hq2]
            intro it hit
            rcases List.mem_append.mp hit with hit | hit
            · exact h1 it hit
            · rw [List.mem_singleton.mp hit]
              simp [hnm]
        have hq2 : ∀ it ∈ (relaxStep h nm endN cur (s, q) e).2,
            it.nodeId ≠ startId →
            ((relaxStep h nm endN cur (s, q) e).1.cameFrom it.nodeId).isSome := by
          intro it hit hne
          rw [hcf]
          by_cases hk : it.nodeId = e.nodeId
          · simp [hk]
          · simp only [if_neg hk]
            rcases hq with ⟨_, hqe⟩ | ⟨nbNode, hnm, hqe⟩
            · rw [hqe] at hit
              exact h2 it hit hne
            · rw [hqe] at hit
              rcases List.mem_append.mp hit with hit | hit
              · exact h2 it hit hne
              · rw [List.mem_singleton.mp hit] at hk
                exact absurd rfl hk
        have hq3 : ∀ n u, (relaxStep h nm endN cur (s, q) e).1.cameFrom n = some u →
            (nm u).isSome := by
          intro n u hn
          simp only [hcf] at hn
          by_cases hk : n = e.nodeId
          · rw [if_pos hk] at hn
            cases hn
            exact hcur
          · rw [if_neg hk] at hn
            exact h3 n u hn
        exact ih (relaxStep h nm endN cur (s, q) e).1
          (relaxStep h nm endN cur (s, q) e).2 hq1 hq2 hq3

theorem astarLoop_zero (h : ℚ → ℚ → ℚ → ℚ → ℚ) (nm : String → Option PathNode)
    (adj : String → List AdjEntry) (N : Nat) (endN : PathNode)
    (openSet : List QueueItem) (s : AStarState) (visited : List String) :
    astarLoop h nm adj N endN 0 openSet s visited = none := by
  rw [astarLoop.eq_def]
  simp

theorem astarLoop_goal (h : ℚ → ℚ → ℚ → ℚ → ℚ) (nm : String → Option PathNode)
    (adj : String → List AdjEntry) (N : Nat) (endN : PathNode) (fuel : Nat)
    (openSet : List QueueItem) (s : AStarState) (visited : List String)
    (cur : QueueItem) (rest : List QueueItem) (hfz : fuel ≠ 0)
    (hpop : popMin openSet = some (cur, rest)) (hgoal : cur.nodeId = endN.id) :
    astarLoop h nm adj N endN fuel openSet s visited =
      some (buildResult nm N s endN.id) := by
  rw [astarLoop.eq_def]
  simp [hfz, hpop, hgoal]

theorem astarLoop_skip (h : ℚ → ℚ → ℚ → ℚ → ℚ) (nm : String → Option PathNode)
    (adj : String → List AdjEntry) (N : Nat) (endN : PathNode) (fuel : Nat)
    (openSet : List QueueItem) (s : AStarState) (visited : List String)
    (cur : QueueItem) (rest : List QueueItem) (hfz : fuel ≠ 0)
    (hpop : popMin openSet = some (cur, rest)) (hne : cur.nodeId ≠ endN.id)
    (hvis : cur.nodeId ∈ visited) :
    astarLoop h nm adj N endN fuel openSet s visited =
      astarLoop h nm adj N endN (fuel - 1) rest s visited := by
  rw [astarLoop.eq_def]
  simp [hfz, hpop, hne, hvis]

theorem astarLoop_expand (h : ℚ → ℚ → ℚ → ℚ → ℚ) (nm : String → Option PathNode)
    (adj : String → List AdjEntry) (N : Nat) (endN : PathNode) (fuel : Nat)
    (openSet : List QueueItem) (s : AStarState) (visited : List String)
    (cur : QueueItem) (rest : List QueueItem) (hfz : fuel ≠ 0)
    (hpop : popMin openSet = some (cur, rest)) (hne : cur.nodeId ≠ endN.id)
    (hvis : cur.nodeId ∉ visited) :
    astarLoop h nm adj N endN fuel openSet s visited =
      astarLoop h nm adj N endN (fuel - 1)
        (relaxAll h nm endN cur.nodeId (adj cur.nodeId) s rest).2
        (relaxAll h nm endN cur.nodeId (adj cur.nodeId) s rest).1
        (cur.nodeId :: visited) := by
  rw [astarLoop.eq_def]
  simp [hfz, hpop, hne, hvis, relaxAll]

theorem astarLoop_two_points (h : ℚ → ℚ → ℚ → ℚ → ℚ)
    (nm : String → Option PathNode) (adj : String → List AdjEntry) (N : Nat)
    (endN : PathNode) (startId : String) (hend : endN.id ≠ startId)
    (hN : 1 ≤ N) :
    ∀ (fuel : Nat) (openSet : List QueueItem) (s : AStarState)
      (visited : List String) (r : PathResult),
      (∀ it ∈ openSet, (nm it.nodeId).isSome) →
      (∀ it ∈ openSet, it.nodeId ≠ startId → (s.cameFrom it.nodeId).isSome) →
      (∀ n u, s.cameFrom n = some u → (nm u).isSome) →
      astarLoop h nm adj N endN fuel openSet s visited = some r →
      2 ≤ r.path.length := by
  intro fuel
  induction fuel using Nat.strong_induction_on with
  | _ fuel ih =>
      intro openSet s visited r h1 h2 h3 hrun
      by_cases hfz : fuel = 0
      · rw [hfz, astarLoop_zero] at hrun
        cases hrun
      · cases hpop : popMin openSet with
        | none =>
            have hempty : openSet = [] := by
              cases hos : openSet with
              | nil => rfl
              | cons y ys =>
                  rw [hos] at hpop
                  exact absurd hpop (popMin_ne_none (y :: ys) (by simp))
            rw [astarLoop.eq_def, if_neg hfz, hempty] at hrun
            change (none : Option PathResult) = some r at hrun
            cases hrun
        | some p =>
            obtain ⟨cur, rest⟩ := p
            have hcurmem : cur ∈ openSet :=
              ((popMin_perm openSet cur rest hpop).mem_iff).mpr
                (List.mem_cons_self cur rest)
            have hrestsub : ∀ x ∈ rest, x ∈ openSet := by
              intro x hx
              exact ((popMin_perm openSet cur rest hpop).mem_iff).mpr
                (List.mem_cons_of_mem cur hx)
            by_cases hgoal : cur.nodeId = endN.id
            · rw [astarLoop_goal h nm adj N endN fuel openSet s visited cur rest
                hfz hpop hgoal] at hrun
              cases hrun
              have hnmend : (nm endN.id).isSome := by
                have := h1 cur hcurmem
                rwa [hgoal] at this
              obtain ⟨endNode, hnmend2⟩ := Option.isSome_iff_exists.mp hnmend
              have hcf : (s.cameFrom endN.id).isSome := by
                have := h2 cur hcurmem (by rw [hgoal]; exact hend)
                rwa [hgoal] at this
              obtain ⟨u, hu⟩ := Option.isSome_iff_exists.mp hcf
              obtain ⟨un, hun⟩ := Option.isSome_iff_exists.mp (h3 endN.id u hu)
              rw [buildResult]
              show 2 ≤ (reconstructPath nm s.cameFrom (N + 1) (some endN.id) []).length
              rw [reconstructPath.eq_def]
              rw [if_neg (by omega)]
              show 2 ≤ (reconstructPath nm s.cameFrom (N + 1 - 1) (s.cameFrom endN.id)
                (match nm endN.id with
                  | some n => [({ lat := n.latitude, lng := n.longitude } : Coord)]
                  | none => [])).length
              rw [hnmend2, hu]
              rw [reconstructPath.eq_def]
              rw [if_neg (by omega)]
              show 2 ≤ (reconstructPath nm s.cameFrom (N + 1 - 1 - 1) (s.cameFrom u)
                (match nm u with
                  | some n => ({ lat := n.latitude, lng := n.longitude } : Coord) ::
                      [{ lat := endNode.latitude, lng := endNode.longitude }]
                  | none => [{ lat := endNode.latitude, lng := endNode.longitude }])).length
              rw [hun]
              have := reconstructPath_length_mono nm s.cameFrom (N + 1 - 1 - 1)
                (s.cameFrom u)
                (({ lat := un.latitude, lng := un.longitude } : Coord) ::
                  [{ lat := endNode.latitude, lng := endNode.longitude }])
              simpa using this
            · by_cases hvis : cur.nodeId ∈ visited
              · rw [astarLoop_skip h nm adj N endN fuel openSet s visited cur rest
                  hfz hpop hgoal hvis] at hrun
                exact ih (fuel - 1) (by omega) rest s visited r
                  (fun it hit => h1 it (hrestsub it hit))
                  (fun it hit => h2 it (hrestsub it hit)) h3 hrun
              · rw [astarLoop_expand h nm adj N endN fuel openSet s visited cur rest
                  hfz hpop hgoal hvis] at hrun
                have hreach := relaxAll_reach h nm endN startId cur.nodeId
                  (h1 cur hcurmem) (adj cur.nodeId) s rest
                  (fun it hit => h1 it (hrestsub it hit))
                  (fun it hit => h2 it (hrestsub it hit)) h3
                exact ih (fuel - 1) (by omega) _ _ _ r hreach.1 hreach.2.1
                  hreach.2.2 hrun

/-- C9 (amended): every successful `PathResult` contains a path with at least
2 coordinate points when the start and end coordinates snap to distinct graph
nodes, and with exactly 1 point when both endpoints snap to the same node. -/
theorem findPath_path_points (h : ℚ → ℚ → ℚ → ℚ → ℚ) (nodes : List PathNode)
    (edges : List PathEdge) (a b c d : ℚ) (r : PathResult)
    (hr : findPath h nodes edges a b c d = some r) :
    ∃ sN eN, findNearestNode h nodes a b = some sN ∧
      findNearestNode h nodes c d = some eN ∧
      (sN.id = eN.id → r.path.length = 1) ∧
      (sN.id ≠ eN.id → 2 ≤ r.path.length) := by
  rw [findPath] at hr
  cases hs : findNearestNode h nodes a b with
  | none =>
      rw [hs] at hr
      cases hr
  | some sN =>
      cases he : findNearestNode h nodes c d with
      | none =>
          rw [hs, he] at hr
          cases hr
      | some eN =>
          rw [hs, he] at hr
          change astarLoop h (buildNodeMap nodes) (buildAdjacencyList edges)
            nodes.length eN (edges.length + nodes.length + 2)
            [{ nodeId := sN.id, fScore := 0 }] (initState sN.id) [] = some r at hr
          have hsmem := findNearestNode_mem h nodes a b sN hs
          have hemem := findNearestNode_mem h nodes c d eN he
          have hnmS : (buildNodeMap nodes sN.id).isSome :=
            (buildNodeMap_isSome_iff nodes sN.id).mpr ⟨sN, hsmem, rfl⟩
          have hnmE : (buildNodeMap nodes eN.id).isSome :=
            (buildNodeMap_isSome_iff nodes eN.id).mpr ⟨eN, hemem, rfl⟩
          have hNpos : 1 ≤ nodes.length := by
            cases hns : nodes with
            | nil => rw [hns] at hsmem; cases hsmem
            | cons x xs => simp
          refine ⟨sN, eN, rfl, rfl, ?_, ?_⟩
          · intro hsame
            have hpop1 : popMin [({ nodeId := sN.id, fScore := 0 } : QueueItem)] =
                some (({ nodeId := sN.id, fScore := 0 } : QueueItem), []) := rfl
            rw [astarLoop_goal h (buildNodeMap nodes) (buildAdjacencyList edges)
              nodes.length eN (edges.length + nodes.length + 2) _ _ []
              ({ nodeId := sN.id, fScore := 0 }) [] (by omega) hpop1 hsame] at hr
            cases hr
            rw [buildResult]
            show (reconstructPath (buildNodeMap nodes) (initState sN.id).cameFrom
              (nodes.length + 1) (some eN.id) []).length = 1
            obtain ⟨endNode, hnmE2⟩ := Option.isSome_iff_exists.mp hnmE
            rw [reconstructPath.eq_def, if_neg (by omega)]
            show (reconstructPath (buildNodeMap nodes) (initState sN.id).cameFrom
              (nodes.length + 1 - 1) ((initState sN.id).cameFrom eN.id)
              (match buildNodeMap nodes eN.id with
                | some n => [({ lat := n.latitude, lng := n.longitude } : Coord)]
                | none => [])).length = 1
            rw [hnmE2]
            show (reconstructPath (buildNodeMap nodes) (initState sN.id).cameFrom
              (nodes.length + 1 - 1) none
              [({ lat := endNode.latitude, lng := endNode.longitude } : Coord)]).length = 1
            rw [reconstructPath_none]
            rfl
          · intro hne
            exact astarLoop_two_points h (buildNodeMap nodes)
              (buildAdjacencyList edges) nodes.length eN sN.id
              (fun heq => hne heq.symm) hNpos
              (edges.length + nodes.length + 2)
              [{ nodeId := sN.id, fScore := 0 }] (initState sN.id) [] r
              (by
                intro it hit
                rw [List.mem_singleton.mp hit]
                exact hnmS)
              (by
                intro it hit hneq
                rw [List.mem_singleton.mp hit] at hneq
                exact absurd rfl hneq)
              (by
                intro n u hcf
                rw [initState] at hcf
                cases hcf)
              hr

/-- C9 (counterexample): on a one-node graph, with both endpoints snapping to
that node, `findPath` succeeds with a single-point path, not one of at least
2 points. -/
theorem findPath_single_point_counterexample :
    findPath (fun _ _ _ _ => 0) [⟨"a", 0, 0⟩] [] 0 0 0 0 =
      some singlePointResult ∧
    singlePointResult.path.length = 1 := by
  constructor
  · norm_num [findPath, findNearestNode, findNearestNodeAux, searchRadii,
      nodesInBox, pickClosest, astarLoop, popMin, buildResult, reconstructPath,
      buildNodeMap, initState, singlePointResult]
  · rfl

/-- Witness for C9 (amended) at the concrete one-node run. -/
theorem findPath_path_points_witness :
    ∃ sN eN,
      findNearestNode (fun _ _ _ _ => (0:ℚ)) [⟨"a", 0, 0⟩] 0 0 = some sN ∧
      findNearestNode (fun _ _ _ _ => (0:ℚ)) [⟨"a", 0, 0⟩] 0 0 = some eN ∧
      (sN.id = eN.id → singlePointResult.path.length = 1) ∧
      (sN.id ≠ eN.id → 2 ≤ singlePointResult.path.length) := by
  have hrun : findPath (fun _ _ _ _ => 0) [⟨"a", 0, 0⟩] [] 0 0 0 0 =
      some singlePointResult := by
    norm_num [findPath, findNearestNode, findNearestNodeAux, searchRadii,
      nodesInBox, pickClosest, astarLoop, popMin, buildResult, reconstructPath,
      buildNodeMap, initState, singlePointResult]
  exact findPath_path_points (fun _ _ _ _ => 0) [⟨"a", 0, 0⟩] [] 0 0 0 0 _ hrun

theorem validWalk_append_one (adj : String → List AdjEntry) :
    ∀ (es : List AdjEntry) (u v : String) (e : AdjEntry),
      ValidWalk adj u v es → e ∈ adj v → ValidWalk adj u e.nodeId (es ++ [e]) := by
  intro es
  induction es with
  | nil =>
      intro u v e hw he
      have huv : u = v := hw
      subst huv
      exact ⟨he, rfl⟩
  | cons f es ih =>
      intro u v e hw he
      obtain ⟨hf, hrest⟩ := hw
      exact ⟨hf, ih _ _ _ hrest he⟩

theorem walkCost_nil : walkCost [] = 0 := rfl

theorem walkCost_cons (e : AdjEntry) (es : List AdjEntry) :
    walkCost (e :: es) = e.cost + walkCost es := by
  simp [walkCost]

theorem walkCost_append_one (es : List AdjEntry) (e : AdjEntry) :
    walkCost (es ++ [e]) = walkCost es + e.cost := by
  simp [walkCost]

theorem walkDist_append_one (es : List AdjEntry) (e : AdjEntry) :
    walkDist (es ++ [e]) = walkDist es + e.distance := by
  simp [walkDist]

theorem walkCost_nonneg (adj : String → List AdjEntry)
    (Hcost : ∀ k, ∀ e ∈ adj k, 0 ≤ e.cost) :
    ∀ (es : List AdjEntry) (u v : String), ValidWalk adj u v es →
      0 ≤ walkCost es := by
  intro es
  induction es with
  | nil => intro u v _; rw [walkCost_nil]
  | cons e es ih =>
      intro u v hw
      obtain ⟨he, hrest⟩ := hw
      rw [walkCost_cons]
      have h1 := ih _ _ hrest
      have h2 := Hcost u e he
      linarith

theorem hOf_telescope (adj : String → List AdjEntry) (hOfF : String → ℚ)
    (Hcons : ∀ k, ∀ e ∈ adj k, hOfF k ≤ e.cost + hOfF e.nodeId) :
    ∀ (es : List AdjEntry) (u v : String), ValidWalk adj u v es →
      hOfF u ≤ walkCost es + hOfF v := by
  intro es
  induction es with
  | nil =>
      intro u v hw
      have huv : u = v := hw
      subst huv
      rw [walkCost_nil]
      linarith
  | cons e es ih =>
      intro u v hw
      obtain ⟨he, hrest⟩ := hw
      have h1 := Hcons u e he
      have h2 := ih _ _ hrest
      rw [walkCost_cons]
      linarith

theorem traced_unique (adj : String → List AdjEntry) (s : AStarState)
    (startId : String) (visited : List String)
    (hcf0 : s.cameFrom startId = none) :
    ∀ (k1 : Nat) (n : String), Traced adj s startId visited k1 n →
      ∀ k2, Traced adj s startId visited k2 n → k1 = k2 := by
  intro k1
  induction k1 with
  | zero =>
      intro n h1 k2 h2
      have h1e : n = startId := h1
      cases k2 with
      | zero => rfl
      | succ k2 =>
          obtain ⟨u, e, hcf, _⟩ := h2
          rw [h1e, hcf0] at hcf
          cases hcf
  | succ k1 ih =>
      intro n h1 k2 h2
      obtain ⟨u1, e1, hcf1, _, _, _, _, _, h1rest⟩ := h1
      cases k2 with
      | zero =>
          have h2e : n = startId := h2
          rw [h2e, hcf0] at hcf1
          cases hcf1
      | succ k2 =>
          obtain ⟨u2, e2, hcf2, _, _, _, _, _, h2rest⟩ := h2
          rw [hcf1] at hcf2
          have hu : u1 = u2 := Option.some.inj hcf2
          subst hu
          have := ih u1 h1rest k2 h2rest
          omega

theorem traced_nonhead (adj : String → List AdjEntry) (s : AStarState)
    (startId : String) (visited : List String)
    (hcf0 : s.cameFrom startId = none) :
    ∀ (k : Nat) (n : String), Traced adj s startId visited k n →
      ∃ l : List String, l.length = k ∧ l.Nodup ∧ (∀ v ∈ l, v ∈ visited) ∧
        (∀ v ∈ l, ∃ j, j < k ∧ Traced adj s startId visited j v) := by
  intro k
  induction k with
  | zero =>
      intro n _
      exact ⟨[], rfl, List.nodup_nil, by simp, by simp⟩
  | succ k ih =>
      intro n h
      obtain ⟨u, e, hcf, he, hen, hvis, hg, hd, htr⟩ := h
      obtain ⟨l, hlen, hnd, hsub, hj⟩ := ih u htr
      refine ⟨u :: l, by simp [hlen], ?_, ?_, ?_⟩
      · rw [List.nodup_cons]
        refine ⟨?_, hnd⟩
        intro hul
        obtain ⟨j, hjk, hjt⟩ := hj u hul
        have := traced_unique adj s startId visited hcf0 k u htr j hjt
        omega
      · intro v hv
        rcases List.mem_cons.mp hv with rfl | hv
        · exact hvis
        · exact hsub v hv
      · intro v hv
        rcases List.mem_cons.mp hv with rfl | hv
        · exact ⟨k, by omega, htr⟩
        · obtain ⟨j, hjk, hjt⟩ := hj v hv
          exact ⟨j, by omega, hjt⟩

theorem traced_le_length (adj : String → List AdjEntry) (s : AStarState)
    (startId : String) (visited : List String)
    (hcf0 : s.cameFrom startId = none) (k : Nat) (n : String)
    (ht : Traced adj s startId visited k n) : k ≤ visited.length := by
  obtain ⟨l, hlen, hnd, hsub, _⟩ := traced_nonhead adj s startId visited hcf0 k n ht
  have h1 : l.toFinset.card = l.length := List.toFinset_card_of_nodup hnd
  have h2 : l.toFinset ⊆ visited.toFinset := by
    intro x hx
    rw [List.mem_toFinset] at hx ⊢
    exact hsub x hx
  have h3 := Finset.card_le_card h2
  have h4 := visited.toFinset_card_le
  omega

theorem traced_mono (adj : String → List AdjEntry) (s : AStarState)
    (startId : String) {visited visited2 : List String}
    (hsub : ∀ v ∈ visited, v ∈ visited2) :
    ∀ (k : Nat) (n : String), Traced adj s startId visited k n →
      Traced adj s startId visited2 k n := by
  intro k
  induction k with
  | zero => intro n h; exact h
  | succ k ih =>
      intro n h
      obtain ⟨u, e, hcf, he, hen, hvis, hg, hd, htr⟩ := h
      exact ⟨u, e, hcf, he, hen, hsub u hvis, hg, hd, ih u htr⟩

theorem traced_stable (adj : String → List AdjEntry) (startId : String)
    (visited : List String) {s s2 : AStarState} {nb : String}
    (hg : ∀ k, k ≠ nb → s2.gScore k = s.gScore k)
    (hcf : ∀ k, k ≠ nb → s2.cameFrom k = s.cameFrom k)
    (hd : ∀ k, k ≠ nb → s2.distanceFrom k = s.distanceFrom k)
    (hnbvis : nb ∉ visited) :
    ∀ (k : Nat) (n : String), n ≠ nb → Traced adj s startId visited k n →
      Traced adj s2 startId visited k n := by
  intro k
  induction k with
  | zero => intro n _ h; exact h
  | succ k ih =>
      intro n hne h
      obtain ⟨u, e, hc, he, hen, hv, ⟨gu, hgu, hgn⟩, ⟨du, hdu, hdn⟩, htr⟩ := h
      have hune : u ≠ nb := fun hu => hnbvis (hu ▸ hv)
      refine ⟨u, e, ?_, he, hen, hv, ⟨gu, ?_, ?_⟩, ⟨du, ?_, ?_⟩, ih u hune htr⟩
      · rw [hcf n hne]; exact hc
      · rw [hg u hune]; exact hgu
      · rw [hg n hne]; exact hgn
      · rw [hd u hune]; exact hdu
      · rw [hd n hne]; exact hdn

theorem traced_full (adj : String → List AdjEntry) (nm : String → Option PathNode)
    {s : AStarState} {startId : String} {visited : List String}
    (hg0 : s.gScore startId = some 0) (hd0 : s.distanceFrom startId = some 0)
    (hcf0 : s.cameFrom startId = none) (hnmstart : (nm startId).isSome)
    (hnmvis : ∀ v ∈ visited, (nm v).isSome) :
    ∀ (k : Nat) (n : String), Traced adj s startId visited k n → (nm n).isSome →
      ∃ es, ValidWalk adj startId n es ∧ es.length = k ∧
        s.gScore n = some (walkCost es) ∧ s.distanceFrom n = some (walkDist es) ∧
        ∀ (fuel : Nat) (acc : List Coord), k + 1 ≤ fuel →
          reconstructPath nm s.cameFrom fuel (some n) acc =
            ((startId :: es.map (fun e => e.nodeId)).filterMap (coordOf nm)) ++ acc := by
  intro k
  induction k with
  | zero =>
      intro n h hn
      have he : n = startId := h
      subst he
      obtain ⟨sn, hsn⟩ := Option.isSome_iff_exists.mp hn
      refine ⟨[], rfl, rfl, hg0, hd0, ?_⟩
      intro fuel acc hfuel
      rw [reconstructPath.eq_def, if_neg (by omega)]
      show reconstructPath nm s.cameFrom (fuel - 1) (s.cameFrom n)
        (match nm n with
          | some nd => ({ lat := nd.latitude, lng := nd.longitude } : Coord) :: acc
          | none => acc) = _
      rw [hsn, hcf0, reconstructPath_none]
      simp [coordOf, hsn]
  | succ k ih =>
      intro n h hn
      obtain ⟨u, e, hc, he, hen, hv, ⟨gu, hgu, hgn⟩, ⟨du, hdu, hdn⟩, htr⟩ := h
      subst hen
      obtain ⟨es, hw, hlen, hgw, hdw, hrec⟩ := ih u htr (hnmvis u hv)
      have hgu2 : gu = walkCost es := by
        rw [hgu] at hgw
        exact Option.some.inj hgw
      have hdu2 : du = walkDist es := by
        rw [hdu] at hdw
        exact Option.some.inj hdw
      obtain ⟨nd, hnd⟩ := Option.isSome_iff_exists.mp hn
      refine ⟨es ++ [e], validWalk_append_one adj es startId u e hw he,
        by simp [hlen], ?_, ?_, ?_⟩
      · rw [walkCost_append_one, ← hgu2]
        exact hgn
      · rw [walkDist_append_one, ← hdu2]
        exact hdn
      · intro fuel acc hfuel
        rw [reconstructPath.eq_def, if_neg (by omega)]
        show reconstructPath nm s.cameFrom (fuel - 1) (s.cameFrom e.nodeId)
          (match nm e.nodeId with
            | some nd2 => ({ lat := nd2.latitude, lng := nd2.longitude } : Coord) :: acc
            | none => acc) = _
        rw [hnd, hc]
        rw [hrec (fuel - 1) _ (by omega)]
        simp only [List.map_append, List.map_cons, List.map_nil]
        rw [← List.cons_append, List.filterMap_append]
        simp [coordOf, hnd]

theorem traced_walk (adj : String → List AdjEntry) {s : AStarState}
    {startId : String} {visited : List String}
    (hg0 : s.gScore startId = some 0) (hd0 : s.distanceFrom startId = some 0) :
    ∀ (k : Nat) (n : String), Traced adj s startId visited k n →
      ∃ es, ValidWalk adj startId n es ∧ es.length = k ∧
        s.gScore n = some (walkCost es) ∧
        s.distanceFrom n = some (walkDist es) := by
  intro k
  induction k with
  | zero =>
      intro n h
      have he : n = startId := h
      subst he
      exact ⟨[], rfl, rfl, hg0, hd0⟩
  | succ k ih =>
      intro n h
      obtain ⟨u, e, hc, he, hen, hv, ⟨gu, hgu, hgn⟩, ⟨du, hdu, hdn⟩, htr⟩ := h
      subst hen
      obtain ⟨es, hw, hlen, hgw, hdw⟩ := ih u htr
      have hgu2 : gu = walkCost es := by
        rw [hgu] at hgw
        exact Option.some.inj hgw
      have hdu2 : du = walkDist es := by
        rw [hdu] at hdw
        exact Option.some.inj hdw
      refine ⟨es ++ [e], validWalk_append_one adj es startId u e hw he,
        by simp [hlen], ?_, ?_⟩
      · rw [walkCost_append_one, ← hgu2]
        exact hgn
      · rw [walkDist_append_one, ← hdu2]
        exact hdn

theorem relaxStep_preserve
    {h : ℚ → ℚ → ℚ → ℚ → ℚ} {nm : String → Option PathNode}
    {adj : String → List AdjEntry} {hOfF : String → ℚ}
    {startId curId : String} {endN : PathNode} {visitedOld : List String}
    {g_c : ℚ}
    (Hcost : ∀ k, ∀ e ∈ adj k, 0 ≤ e.cost)
    (HclosedAdj : ∀ k, ∀ e ∈ adj k, (nm e.nodeId).isSome)
    (Hhof : ∀ n nd, nm n = some nd →
      hOfF n = h nd.latitude nd.longitude endN.latitude endN.longitude)
    {e : AdjEntry} (he : e ∈ adj curId)
    {s : AStarState} {q : List QueueItem}
    (inv : AInv adj nm hOfF startId s q (curId :: visitedOld))
    (hexp : Expanded adj s visitedOld)
    (hgc : s.gScore curId = some g_c) :
    AInv adj nm hOfF startId (relaxStep h nm endN curId (s, q) e).1
      (relaxStep h nm endN curId (s, q) e).2 (curId :: visitedOld) ∧
    Expanded adj (relaxStep h nm endN curId (s, q) e).1 visitedOld ∧
    (relaxStep h nm endN curId (s, q) e).1.gScore curId = some g_c ∧
    (∀ n gn, s.gScore n = some gn →
      ∃ gn2, (relaxStep h nm endN curId (s, q) e).1.gScore n = some gn2 ∧
        gn2 ≤ gn) ∧
    (∃ gy, (relaxStep h nm endN curId (s, q) e).1.gScore e.nodeId = some gy ∧
      gy ≤ g_c + e.cost) := by
  rcases relaxStep_shape h nm endN curId s q e with
    ⟨hnone, heq⟩ | ⟨g, gn, hg, hgn, hnlt, heq⟩ |
    ⟨g, hg, himp, hgs, hcf, hdf, hq⟩
  · rw [hgc] at hnone
    cases hnone
  · rw [heq]
    rw [hgc] at hg
    have hgg : g = g_c := (Option.some.inj hg).symm
    subst hgg
    exact ⟨inv, hexp, hgc,
      fun n gn2 hrec => ⟨gn2, hrec, le_refl _⟩,
      ⟨gn, hgn, le_of_not_lt hnlt⟩⟩
  · rw [hgc] at hg
    have hgg : g_c = g := Option.some.inj hg
    subst hgg
    obtain ⟨k_c, htr_c⟩ := inv.traced curId g_c hgc
    obtain ⟨es_c, hw_c, hlen_c, hgw_c, hdw_c⟩ :=
      traced_walk adj inv.start_g inv.start_d k_c curId htr_c
    have hgcw : g_c = walkCost es_c := by
      rw [hgc] at hgw_c
      exact Option.some.inj hgw_c
    have hgcpos : 0 ≤ g_c := by
      rw [hgcw]
      exact walkCost_nonneg adj Hcost es_c startId curId hw_c
    have hecost : 0 ≤ e.cost := Hcost curId e he
    have hnb_nvis : e.nodeId ∉ curId :: visitedOld := by
      intro hmem
      obtain ⟨gn, hrec, hopt⟩ := inv.visited_opt e.nodeId hmem
      have hlt := himp gn hrec
      have hwext := validWalk_append_one adj es_c startId curId e hw_c he
      have hle := hopt (es_c ++ [e]) hwext
      rw [walkCost_append_one, ← hgcw] at hle
      linarith
    have hnb_start : e.nodeId ≠ startId := by
      intro heqs
      have hlt := himp 0 (heqs ▸ inv.start_g)
      linarith
    have hcurne : curId ≠ e.nodeId := by
      intro hh
      exact hnb_nvis (hh ▸ List.mem_cons_self curId visitedOld)
    have hnmnb : (nm e.nodeId).isSome := HclosedAdj curId e he
    obtain ⟨nbNode, hnm, hq2⟩ : ∃ nbNode, nm e.nodeId = some nbNode ∧
        (relaxStep h nm endN curId (s, q) e).2 = q ++
          [⟨e.nodeId, g_c + e.cost +
            h nbNode.latitude nbNode.longitude endN.latitude endN.longitude⟩] := by
      rcases hq with ⟨hnone2, _⟩ | ⟨nbNode, hnm, hq2⟩
      · rw [hnone2] at hnmnb
        cases hnmnb
      · exact ⟨nbNode, hnm, hq2⟩
    have hOfnb : hOfF e.nodeId =
        h nbNode.latitude nbNode.longitude endN.latitude endN.longitude :=
      Hhof e.nodeId nbNode hnm
    have hgs2 : ∀ k2, k2 ≠ e.nodeId →
        (relaxStep h nm endN curId (s, q) e).1.gScore k2 = s.gScore k2 := by
      intro k2 hk2
      rw [hgs]
      simp [hk2]
    have hcf2 : ∀ k2, k2 ≠ e.nodeId →
        (relaxStep h nm endN curId (s, q) e).1.cameFrom k2 = s.cameFrom k2 := by
      intro k2 hk2
      rw [hcf]
      simp [hk2]
    have hdf2 : ∀ k2, k2 ≠ e.nodeId →
        (relaxStep h nm endN curId (s, q) e).1.distanceFrom k2 =
          s.distanceFrom k2 := by
      intro k2 hk2
      rw [hdf]
      simp [hk2]
    have hgsnb : (relaxStep h nm endN curId (s, q) e).1.gScore e.nodeId =
        some (g_c + e.cost) := by
      rw [hgs]
      simp
    have hcfnb : (relaxStep h nm endN curId (s, q) e).1.cameFrom e.nodeId =
        some curId := by
      rw [hcf]
      simp
    have hdfnb : (relaxStep h nm endN curId (s, q) e).1.distanceFrom e.nodeId =
        some (walkDist es_c + e.distance) := by
      rw [hdf]
      simp [hdw_c]
    refine ⟨⟨?_, ?_, ?_, ?_, ?_, ?_, ?_, inv.nm_visited, ?_, inv.visited_nodup⟩,
      ?_, ?_, ?_, ?_⟩
    · rw [hgs2 startId (fun hh => hnb_start hh.symm)]
      exact inv.start_g
    · rw [hdf2 startId (fun hh => hnb_start hh.symm)]
      exact inv.start_d
    · rw [hcf2 startId (fun hh => hnb_start hh.symm)]
      exact inv.start_cf
    · intro v hv
      have hvne : v ≠ e.nodeId := fun hh => hnb_nvis (hh ▸ hv)
      obtain ⟨gv, hrec, hopt⟩ := inv.visited_opt v hv
      exact ⟨gv, by rw [hgs2 v hvne]; exact hrec, hopt⟩
    · intro n gn hrecn
      by_cases hn : n = e.nodeId
      · subst hn
        refine ⟨k_c + 1, curId, e, hcfnb, he, rfl,
          List.mem_cons_self curId visitedOld,
          ⟨g_c, by rw [hgs2 curId hcurne]; exact hgc, hgsnb⟩,
          ⟨walkDist es_c, by rw [hdf2 curId hcurne]; exact hdw_c, hdfnb⟩, ?_⟩
        exact traced_stable adj startId (curId :: visitedOld) hgs2 hcf2 hdf2
          hnb_nvis k_c curId hcurne htr_c
      · rw [hgs2 n hn] at hrecn
        obtain ⟨k, htr⟩ := inv.traced n gn hrecn
        exact ⟨k, traced_stable adj startId (curId :: visitedOld) hgs2 hcf2 hdf2
          hnb_nvis k n hn htr⟩
    · intro it hit
      rw [hq2] at hit
      rcases List.mem_append.mp hit with hold | hnew
      · rcases inv.queue_lower it hold with hstart | ⟨gold, hrecold, hbold⟩
        · exact Or.inl hstart
        · right
          by_cases hnid : it.nodeId = e.nodeId
          · have hlt := himp gold (hnid ▸ hrecold)
            refine ⟨g_c + e.cost, by rw [hnid]; exact hgsnb, ?_⟩
            rw [hnid]
            rw [hnid] at hbold
            linarith
          · exact ⟨gold, by rw [hgs2 it.nodeId hnid]; exact hrecold, hbold⟩
      · rw [List.mem_singleton.mp hnew]
        right
        exact ⟨g_c + e.cost, hgsnb, by rw [hOfnb]⟩
    · intro n hn gn hrecn
      by_cases hnnb : n = e.nodeId
      · subst hnnb
        rw [hgsnb] at hrecn
        have hgneq : gn = g_c + e.cost := (Option.some.inj hrecn).symm
        subst hgneq
        refine ⟨⟨e.nodeId, g_c + e.cost +
          h nbNode.latitude nbNode.longitude endN.latitude endN.longitude⟩, ?_, rfl, ?_⟩
        · rw [hq2]
          exact List.mem_append_right q (List.mem_singleton.mpr rfl)
        · rw [hOfnb]
      · rw [hgs2 n hnnb] at hrecn
        obtain ⟨it, hit, hid, hle⟩ := inv.queue_witness n hn gn hrecn
        refine ⟨it, ?_, hid, hle⟩
        rw [hq2]
        exact List.mem_append_left _ hit
    · intro it hit
      rw [hq2] at hit
      rcases List.mem_append.mp hit with hold | hnew
      · exact inv.nm_queue it hold
      · rw [List.mem_singleton.mp hnew]
        exact hnmnb
    · intro p hp e2 he2
      obtain ⟨gp, gy, hgp, hgy, hb⟩ := hexp p hp e2 he2
      have hpne : p ≠ e.nodeId := fun hh =>
        hnb_nvis (hh ▸ List.mem_cons_of_mem curId hp)
      by_cases h2 : e2.nodeId = e.nodeId
      · have hlt := himp gy (h2 ▸ hgy)
        refine ⟨gp, g_c + e.cost, by rw [hgs2 p hpne]; exact hgp,
          by rw [h2]; exact hgsnb, ?_⟩
        linarith
      · exact ⟨gp, gy, by rw [hgs2 p hpne]; exact hgp,
          by rw [hgs2 e2.nodeId h2]; exact hgy, hb⟩
    · rw [hgs2 curId hcurne]
      exact hgc
    · intro n gn hrecn
      by_cases hn : n = e.nodeId
      · subst hn
        have hlt := himp gn hrecn
        exact ⟨g_c + e.cost, hgsnb, le_of_lt hlt⟩
      · exact ⟨gn, by rw [hgs2 n hn]; exact hrecn, le_refl _⟩
    · exact ⟨g_c + e.cost, hgsnb, le_refl _⟩

theorem relaxAll_preserve
    {h : ℚ → ℚ → ℚ → ℚ → ℚ} {nm : String → Option PathNode}
    {adj : String → List AdjEntry} {hOfF : String → ℚ}
    {startId curId : String} {endN : PathNode} {visitedOld : List String}
    {g_c : ℚ}
    (Hcost : ∀ k, ∀ e ∈ adj k, 0 ≤ e.cost)
    (HclosedAdj : ∀ k, ∀ e ∈ adj k, (nm e.nodeId).isSome)
    (Hhof : ∀ n nd, nm n = some nd →
      hOfF n = h nd.latitude nd.longitude endN.latitude endN.longitude) :
    ∀ (L : List AdjEntry), (∀ e ∈ L, e ∈ adj curId) →
    ∀ (s : AStarState) (q : List QueueItem),
      AInv adj nm hOfF startId s q (curId :: visitedOld) →
      Expanded adj s visitedOld →
      s.gScore curId = some g_c →
      AInv adj nm hOfF startId (L.foldl (relaxStep h nm endN curId) (s, q)).1
        (L.foldl (relaxStep h nm endN curId) (s, q)).2 (curId :: visitedOld) ∧
      Expanded adj (L.foldl (relaxStep h nm endN curId) (s, q)).1 visitedOld ∧
      (L.foldl (relaxStep h nm endN curId) (s, q)).1.gScore curId = some g_c ∧
      (∀ n gn, s.gScore n = some gn →
        ∃ gn2, (L.foldl (relaxStep h nm endN curId) (s, q)).1.gScore n = some gn2 ∧
          gn2 ≤ gn) ∧
      (∀ e ∈ L, ∃ gy,
        (L.foldl (relaxStep h nm endN curId) (s, q)).1.gScore e.nodeId = some gy ∧
        gy ≤ g_c + e.cost) := by
  intro L
  induction L with
  | nil =>
      intro _ s q inv hexp hgc
      exact ⟨inv, hexp, hgc, fun n gn hr => ⟨gn, hr, le_refl _⟩,
        fun e he => absurd he (List.not_mem_nil e)⟩
  | cons e L ih =>
      intro hsub s q inv hexp hgc
      have he : e ∈ adj curId := hsub e (List.mem_cons_self e L)
      obtain ⟨inv1, hexp1, hgc1, hmono1, gy, hgy, hb⟩ :=
        relaxStep_preserve Hcost HclosedAdj Hhof he inv hexp hgc
      rw [List.foldl_cons]
      obtain ⟨inv2, hexp2, hgc2, hmono2, hbound2⟩ :=
        ih (fun x hx => hsub x (List.mem_cons_of_mem e hx))
          (relaxStep h nm endN curId (s, q) e).1
          (relaxStep h nm endN curId (s, q) e).2 inv1 hexp1 hgc1
      refine ⟨inv2, hexp2, hgc2, ?_, ?_⟩
      · intro n gn hr
        obtain ⟨gn1, hr1, hle1⟩ := hmono1 n gn hr
        obtain ⟨gn2, hr2, hle2⟩ := hmono2 n gn1 hr1
        exact ⟨gn2, hr2, le_trans hle2 hle1⟩
      · intro e2 he2
        rcases List.mem_cons.mp he2 with rfl | he2
        · obtain ⟨gy2, hr2, hle2⟩ := hmono2 e2.nodeId gy hgy
          exact ⟨gy2, hr2, le_trans hle2 hb⟩
        · exact hbound2 e2 he2

theorem frontier_path {adj : String → List AdjEntry} {nm : String → Option PathNode}
    {hOfF : String → ℚ} {startId : String} {s : AStarState}
    {openSet : List QueueItem} {visited : List String}
    (inv : AInv adj nm hOfF startId s openSet visited)
    (hexp : Expanded adj s visited)
    (Hcons : ∀ k, ∀ e ∈ adj k, hOfF k ≤ e.cost + hOfF e.nodeId) :
    ∀ (es : List AdjEntry) (u t : String), ValidWalk adj u t es → u ∈ visited →
      t ∉ visited → ∀ gu, s.gScore u = some gu →
      ∃ it ∈ openSet, it.fScore ≤ gu + walkCost es + hOfF t := by
  intro es
  induction es with
  | nil =>
      intro u t hw hu ht gu hgu
      have huv : u = t := hw
      subst huv
      exact absurd hu ht
  | cons e es ih =>
      intro u t hw hu ht gu hgu
      obtain ⟨he, hrest⟩ := hw
      obtain ⟨gp, gv, hgp, hgv, hbound⟩ := hexp u hu e he
      rw [hgu] at hgp
      have hgp2 : gu = gp := Option.some.inj hgp
      subst hgp2
      by_cases hv : e.nodeId ∈ visited
      · obtain ⟨it, hit, hle⟩ := ih e.nodeId t hrest hv ht gv hgv
        refine ⟨it, hit, ?_⟩
        rw [walkCost_cons]
        linarith
      · obtain ⟨it, hit, hidt, hle⟩ := inv.queue_witness e.nodeId hv gv hgv
        have htel := hOf_telescope adj hOfF Hcons es e.nodeId t hrest
        refine ⟨it, hit, ?_⟩
        rw [walkCost_cons]
        linarith

theorem pop_optimal {adj : String → List AdjEntry} {nm : String → Option PathNode}
    {hOfF : String → ℚ} {startId : String} {s : AStarState}
    {openSet : List QueueItem} {visited : List String}
    (inv : AInv adj nm hOfF startId s openSet visited)
    (hexp : Expanded adj s visited)
    (Hcost : ∀ k, ∀ e ∈ adj k, 0 ≤ e.cost)
    (Hcons : ∀ k, ∀ e ∈ adj k, hOfF k ≤ e.cost + hOfF e.nodeId)
    {cur : QueueItem} {rest : List QueueItem}
    (hpop : popMin openSet = some (cur, rest))
    (hnv : cur.nodeId ∉ visited) :
    ∃ g, s.gScore cur.nodeId = some g ∧
      ∀ es, ValidWalk adj startId cur.nodeId es → g ≤ walkCost es := by
  have hcurmem : cur ∈ openSet :=
    ((popMin_perm openSet cur rest hpop).mem_iff).mpr (List.mem_cons_self cur rest)
  have hmin := popMin_min openSet cur rest hpop
  rcases inv.queue_lower cur hcurmem with hstart | ⟨g, hg, hlow⟩
  · rw [hstart]
    refine ⟨0, inv.start_g, ?_⟩
    intro es hw
    have := walkCost_nonneg adj Hcost es startId startId hw
    linarith
  · refine ⟨g, hg, ?_⟩
    intro es hw
    by_cases hsv : startId ∈ visited
    · obtain ⟨it, hit, hle⟩ :=
        frontier_path inv hexp Hcons es startId cur.nodeId hw hsv hnv 0 inv.start_g
      have h2 := hmin it hit
      linarith
    · obtain ⟨it0, hit0, hid0, hle0⟩ := inv.queue_witness startId hsv 0 inv.start_g
      have htel := hOf_telescope adj hOfF Hcons es startId cur.nodeId hw
      have h2 := hmin it0 hit0
      linarith

theorem expand_preserve
    {h : ℚ → ℚ → ℚ → ℚ → ℚ} {nm : String → Option PathNode}
    {adj : String → List AdjEntry} {hOfF : String → ℚ}
    {startId : String} {endN : PathNode}
    {s : AStarState} {openSet : List QueueItem} {visited : List String}
    (Hcost : ∀ k, ∀ e ∈ adj k, 0 ≤ e.cost)
    (Hcons : ∀ k, ∀ e ∈ adj k, hOfF k ≤ e.cost + hOfF e.nodeId)
    (HclosedAdj : ∀ k, ∀ e ∈ adj k, (nm e.nodeId).isSome)
    (Hhof : ∀ n nd, nm n = some nd →
      hOfF n = h nd.latitude nd.longitude endN.latitude endN.longitude)
    (inv : AInv adj nm hOfF startId s openSet visited)
    (hexp : Expanded adj s visited)
    {cur : QueueItem} {rest : List QueueItem}
    (hpop : popMin openSet = some (cur, rest))
    (hnv : cur.nodeId ∉ visited) :
    AInv adj nm hOfF startId
      (relaxAll h nm endN cur.nodeId (adj cur.nodeId) s rest).1
      (relaxAll h nm endN cur.nodeId (adj cur.nodeId) s rest).2
      (cur.nodeId :: visited) ∧
    Expanded adj (relaxAll h nm endN cur.nodeId (adj cur.nodeId) s rest).1
      (cur.nodeId :: visited) := by
  have hcurmem : cur ∈ openSet :=
    ((popMin_perm openSet cur rest hpop).mem_iff).mpr (List.mem_cons_self cur rest)
  have hrestsub : ∀ x ∈ rest, x ∈ openSet := by
    intro x hx
    exact ((popMin_perm openSet cur rest hpop).mem_iff).mpr
      (List.mem_cons_of_mem cur hx)
  have hnmcur : (nm cur.nodeId).isSome := inv.nm_queue cur hcurmem
  obtain ⟨g_c, hgc, hopt⟩ := pop_optimal inv hexp Hcost Hcons hpop hnv
  have inv1 : AInv adj nm hOfF startId s rest (cur.nodeId :: visited) := by
    refine ⟨inv.start_g, inv.start_d, inv.start_cf, ?_, ?_, ?_, ?_, ?_, ?_, ?_⟩
    · intro v hv
      rcases List.mem_cons.mp hv with rfl | hv
      · exact ⟨g_c, hgc, hopt⟩
      · exact inv.visited_opt v hv
    · intro n g hrec
      obtain ⟨k, htr⟩ := inv.traced n g hrec
      exact ⟨k, traced_mono adj s startId
        (fun v hv => List.mem_cons_of_mem cur.nodeId hv) k n htr⟩
    · intro it hit
      exact inv.queue_lower it (hrestsub it hit)
    · intro n hn g hrec
      have hn1 : n ∉ visited := fun hh => hn (List.mem_cons_of_mem cur.nodeId hh)
      have hn2 : n ≠ cur.nodeId := fun hh => hn (hh ▸ List.mem_cons_self _ _)
      obtain ⟨it, hit, hid, hle⟩ := inv.queue_witness n hn1 g hrec
      have hit2 : it ∈ cur :: rest :=
        ((popMin_perm openSet cur rest hpop).mem_iff).mp hit
      rcases List.mem_cons.mp hit2 with rfl | hit3
      · exact absurd hid.symm hn2
      · exact ⟨it, hit3, hid, hle⟩
    · intro n hn
      rcases List.mem_cons.mp hn with rfl | hn
      · exact hnmcur
      · exact inv.nm_visited n hn
    · intro it hit
      exact inv.nm_queue it (hrestsub it hit)
    · exact List.nodup_cons.mpr ⟨hnv, inv.visited_nodup⟩
  obtain ⟨inv2, hexp2, hgc2, hmono2, hbound2⟩ :=
    relaxAll_preserve Hcost HclosedAdj Hhof (adj cur.nodeId)
      (fun e he => he) s rest inv1 hexp hgc
  simp only [relaxAll]
  refine ⟨inv2, ?_⟩
  intro p hp e2 he2
  rcases List.mem_cons.mp hp with rfl | hp
  · obtain ⟨gy, hgy, hb⟩ := hbound2 e2 he2
    exact ⟨g_c, gy, hgc2, hgy, hb⟩
  · exact hexp2 p hp e2 he2

theorem nodup_nm_length_le (nodes : List PathNode) (l : List String)
    (hnd : l.Nodup) (hsome : ∀ n ∈ l, (buildNodeMap nodes n).isSome) :
    l.length ≤ nodes.length := by
  have hsub : l.toFinset ⊆ (nodes.map (fun n => n.id)).toFinset := by
    intro x hx
    rw [List.mem_toFinset] at hx ⊢
    obtain ⟨n, hn, hid⟩ := (buildNodeMap_isSome_iff nodes x).mp (hsome x hx)
    exact List.mem_map.mpr ⟨n, hn, hid⟩
  have h1 : l.toFinset.card = l.length := List.toFinset_card_of_nodup hnd
  have h2 := Finset.card_le_card hsub
  have h3 := (nodes.map (fun n => n.id)).toFinset_card_le
  rw [List.length_map] at h3
  omega

theorem astarLoop_optimal
    {h : ℚ → ℚ → ℚ → ℚ → ℚ} {nm : String → Option PathNode}
    {adj : String → List AdjEntry} {hOfF : String → ℚ}
    {startId : String} {endN : PathNode} {N : Nat}
    (Hcost : ∀ k, ∀ e ∈ adj k, 0 ≤ e.cost)
    (Hcons : ∀ k, ∀ e ∈ adj k, hOfF k ≤ e.cost + hOfF e.nodeId)
    (HclosedAdj : ∀ k, ∀ e ∈ adj k, (nm e.nodeId).isSome)
    (Hhof : ∀ n nd, nm n = some nd →
      hOfF n = h nd.latitude nd.longitude endN.latitude endN.longitude)
    (hnmstart : (nm startId).isSome)
    (HN : ∀ l : List String, l.Nodup → (∀ n ∈ l, (nm n).isSome) →
      l.length ≤ N) :
    ∀ (fuel : Nat) (openSet : List QueueItem) (s : AStarState)
      (visited : List String) (r : PathResult),
      AInv adj nm hOfF startId s openSet visited →
      Expanded adj s visited →
      endN.id ∉ visited →
      astarLoop h nm adj N endN fuel openSet s visited = some r →
      ∃ es, ValidWalk adj startId endN.id es ∧
        r.totalCost = walkCost es ∧
        (∀ es2, ValidWalk adj startId endN.id es2 →
          r.totalCost ≤ walkCost es2) ∧
        r.totalDistance = walkDist es ∧
        r.path = (startId :: es.map (fun e => e.nodeId)).filterMap (coordOf nm) := by
  intro fuel
  induction fuel using Nat.strong_induction_on with
  | _ fuel ih =>
      intro openSet s visited r inv hexp hendvis hrun
      by_cases hfz : fuel = 0
      · rw [hfz, astarLoop_zero] at hrun
        cases hrun
      · cases hpop : popMin openSet with
        | none =>
            have hempty : openSet = [] := by
              cases hos : openSet with
              | nil => rfl
              | cons y ys =>
                  rw [hos] at hpop
                  exact absurd hpop (popMin_ne_none (y :: ys) (by simp))
            rw [astarLoop.eq_def, if_neg hfz, hempty] at hrun
            change (none : Option PathResult) = some r at hrun
            cases hrun
        | some p =>
            obtain ⟨cur, rest⟩ := p
            by_cases hgoal : cur.nodeId = endN.id
            · rw [astarLoop_goal h nm adj N endN fuel openSet s visited cur rest
                hfz hpop hgoal] at hrun
              have hnv : cur.nodeId ∉ visited := by
                rw [hgoal]
                exact hendvis
              obtain ⟨g, hg, hopt⟩ := pop_optimal inv hexp Hcost Hcons hpop hnv
              rw [hgoal] at hg hopt
              have hcurmem : cur ∈ openSet :=
                ((popMin_perm openSet cur rest hpop).mem_iff).mpr
                  (List.mem_cons_self cur rest)
              have hnmend : (nm endN.id).isSome := by
                have := inv.nm_queue cur hcurmem
                rwa [hgoal] at this
              obtain ⟨k, htr⟩ := inv.traced endN.id g hg
              obtain ⟨es, hw, hlen, hgw, hdw, hrec⟩ :=
                traced_full adj nm inv.start_g inv.start_d inv.start_cf
                  hnmstart inv.nm_visited k endN.id htr hnmend
              have hgval : g = walkCost es := by
                rw [hg] at hgw
                exact Option.some.inj hgw
              have hkle : k ≤ visited.length :=
                traced_le_length adj s startId visited inv.start_cf k endN.id htr
              have hcard : visited.length ≤ N :=
                HN visited inv.visited_nodup inv.nm_visited
              cases hrun
              refine ⟨es, hw, ?_, ?_, ?_, ?_⟩
              · show (s.gScore endN.id).getD 0 = walkCost es
                rw [hgw]
                rfl
              · intro es2 hw2
                show (s.gScore endN.id).getD 0 ≤ walkCost es2
                rw [hg]
                show g ≤ walkCost es2
                rw [hgval] at hopt
                rw [hgval]
                exact hopt es2 hw2
              · show (s.distanceFrom endN.id).getD 0 = walkDist es
                rw [hdw]
                rfl
              · show reconstructPath nm s.cameFrom (N + 1) (some endN.id) [] = _
                rw [hrec (N + 1) [] (by omega)]
                rw [List.append_nil]
            · by_cases hvis : cur.nodeId ∈ visited
              · rw [astarLoop_skip h nm adj N endN fuel openSet s visited cur rest
                  hfz hpop hgoal hvis] at hrun
                have hrestsub : ∀ x ∈ rest, x ∈ openSet := by
                  intro x hx
                  exact ((popMin_perm openSet cur rest hpop).mem_iff).mpr
                    (List.mem_cons_of_mem cur hx)
                have inv1 : AInv adj nm hOfF startId s rest visited := by
                  refine ⟨inv.start_g, inv.start_d, inv.start_cf,
                    inv.visited_opt, inv.traced, ?_, ?_, inv.nm_visited, ?_,
                    inv.visited_nodup⟩
                  · intro it hit
                    exact inv.queue_lower it (hrestsub it hit)
                  · intro n hn g hrec
                    obtain ⟨it, hit, hid, hle⟩ := inv.queue_witness n hn g hrec
                    have hit2 : it ∈ cur :: rest :=
                      ((popMin_perm openSet cur rest hpop).mem_iff).mp hit
                    rcases List.mem_cons.mp hit2 with rfl | hit3
                    · exact absurd (hid ▸ hvis) hn
                    · exact ⟨it, hit3, hid, hle⟩
                  · intro it hit
                    exact inv.nm_queue it (hrestsub it hit)
                exact ih (fuel - 1) (by omega) rest s visited r inv1 hexp
                  hendvis hrun
              · rw [astarLoop_expand h nm adj N endN fuel openSet s visited cur
                  rest hfz hpop hgoal hvis] at hrun
                obtain ⟨inv2, hexp2⟩ := expand_preserve Hcost Hcons HclosedAdj
                  Hhof inv hexp hpop hvis
                have hendvis2 : endN.id ∉ cur.nodeId :: visited := by
                  intro hm
                  rcases List.mem_cons.mp hm with hm | hm
                  · exact hgoal hm.symm
                  · exact hendvis hm
                exact ih (fuel - 1) (by omega) _ _ _ r inv2 hexp2 hendvis2 hrun

/-- C3: on any graph whose effective penalties are all at least `1`, with
nonnegative edge distances, a nonnegative heuristic consistent with the raw
edge distances, and every edge target present in the node map, a successful
`findPath` returns the exact minimum penalized cost over all walks between
the snapped endpoints, and its `totalDistance` is the sum of the raw
(unpenalized) edge distances along the returned walk, whose node sequence is
the returned path. -/
theorem findPath_optimal (h : ℚ → ℚ → ℚ → ℚ → ℚ)
    (nodes : List PathNode) (edges : List PathEdge)
    (sLat sLng eLat eLng : ℚ) (r : PathResult)
    (hpen : ∀ e ∈ edges, 1 ≤ effectivePenalty e)
    (hdist : ∀ e ∈ edges, 0 ≤ e.distance)
    (hh0 : ∀ a b c d, 0 ≤ h a b c d)
    (hclosed : ∀ e ∈ edges, (buildNodeMap nodes e.endNodeId).isSome)
    (htri : ∀ e ∈ edges, ∀ ns nt, buildNodeMap nodes e.startNodeId = some ns →
      buildNodeMap nodes e.endNodeId = some nt → ∀ tLat tLng,
      h ns.latitude ns.longitude tLat tLng ≤
        e.distance + h nt.latitude nt.longitude tLat tLng)
    (hrun : findPath h nodes edges sLat sLng eLat eLng = some r) :
    ∃ sN eN, findNearestNode h nodes sLat sLng = some sN ∧
      findNearestNode h nodes eLat eLng = some eN ∧
      ∃ es, ValidWalk (buildAdjacencyList edges) sN.id eN.id es ∧
        r.totalCost = walkCost es ∧
        (∀ es2, ValidWalk (buildAdjacencyList edges) sN.id eN.id es2 →
          r.totalCost ≤ walkCost es2) ∧
        r.totalDistance = walkDist es ∧
        r.path = (sN.id :: es.map (fun e => e.nodeId)).filterMap
          (coordOf (buildNodeMap nodes)) := by
  cases hs : findNearestNode h nodes sLat sLng with
  | none =>
      rw [findPath, hs] at hrun
      cases hrun
  | some sN =>
      cases he : findNearestNode h nodes eLat eLng with
      | none =>
          rw [findPath, hs, he] at hrun
          cases hrun
      | some eN =>
          refine ⟨sN, eN, rfl, rfl, ?_⟩
          rw [findPath, hs, he] at hrun
          have hloop : astarLoop h (buildNodeMap nodes)
              (buildAdjacencyList edges) nodes.length eN
              (edges.length + nodes.length + 2)
              [{ nodeId := sN.id, fScore := 0 }] (initState sN.id) [] =
              some r := hrun
          have Hcost : ∀ k, ∀ e2 ∈ buildAdjacencyList edges k, 0 ≤ e2.cost := by
            intro k e2 he2
            rw [buildAdjacencyList_eq] at he2
            obtain ⟨ed, hed, rfl⟩ := List.mem_map.mp he2
            have hed2 := List.mem_of_mem_filter hed
            show 0 ≤ ed.distance * effectivePenalty ed
            exact mul_nonneg (hdist ed hed2)
              (le_trans zero_le_one (hpen ed hed2))
          have HclosedAdj : ∀ k, ∀ e2 ∈ buildAdjacencyList edges k,
              (buildNodeMap nodes e2.nodeId).isSome := by
            intro k e2 he2
            rw [buildAdjacencyList_eq] at he2
            obtain ⟨ed, hed, rfl⟩ := List.mem_map.mp he2
            exact hclosed ed (List.mem_of_mem_filter hed)
          have hof0 : ∀ n, 0 ≤ hOf h (buildNodeMap nodes) eN n := by
            intro n
            rw [hOf]
            cases buildNodeMap nodes n with
            | none => exact le_refl 0
            | some nd => exact hh0 _ _ _ _
          have Hcons : ∀ k, ∀ e2 ∈ buildAdjacencyList edges k,
              hOf h (buildNodeMap nodes) eN k ≤
                e2.cost + hOf h (buildNodeMap nodes) eN e2.nodeId := by
            intro k e2 he2
            rw [buildAdjacencyList_eq] at he2
            obtain ⟨ed, hed, rfl⟩ := List.mem_map.mp he2
            have hk : k = ed.startNodeId := by
              have := (List.mem_filter.mp hed).2
              simpa using this
            have hed2 := List.mem_of_mem_filter hed
            obtain ⟨nt, hnt⟩ :=
              Option.isSome_iff_exists.mp (hclosed ed hed2)
            have hdle : ed.distance ≤ (entryOf ed).cost := by
              show ed.distance ≤ ed.distance * effectivePenalty ed
              exact le_mul_of_one_le_right (hdist ed hed2) (hpen ed hed2)
            have htgt : hOf h (buildNodeMap nodes) eN (entryOf ed).nodeId =
                h nt.latitude nt.longitude eN.latitude eN.longitude := by
              show hOf h (buildNodeMap nodes) eN ed.endNodeId = _
              rw [hOf, hnt]
            subst hk
            cases hns : buildNodeMap nodes ed.startNodeId with
            | none =>
                have h1 : hOf h (buildNodeMap nodes) eN ed.startNodeId = 0 := by
                  rw [hOf, hns]
                rw [h1, htgt]
                have := hh0 nt.latitude nt.longitude eN.latitude eN.longitude
                have := Hcost ed.startNodeId (entryOf ed)
                  (by rw [buildAdjacencyList_eq]
                      exact List.mem_map_of_mem entryOf hed)
                linarith
            | some ns =>
                have h1 : hOf h (buildNodeMap nodes) eN ed.startNodeId =
                    h ns.latitude ns.longitude eN.latitude eN.longitude := by
                  rw [hOf, hns]
                rw [h1, htgt]
                have h2 := htri ed hed2 ns nt hns hnt eN.latitude eN.longitude
                linarith
          have Hhof : ∀ n nd, buildNodeMap nodes n = some nd →
              hOf h (buildNodeMap nodes) eN n =
                h nd.latitude nd.longitude eN.latitude eN.longitude := by
            intro n nd hnd
            rw [hOf, hnd]
          have hnmstart : (buildNodeMap nodes sN.id).isSome :=
            (buildNodeMap_isSome_iff nodes sN.id).mpr
              ⟨sN, findNearestNode_mem h nodes sLat sLng sN hs, rfl⟩
          have HN : ∀ l : List String, l.Nodup →
              (∀ n ∈ l, (buildNodeMap nodes n).isSome) →
              l.length ≤ nodes.length :=
            nodup_nm_length_le nodes
          have inv0 : AInv (buildAdjacencyList edges) (buildNodeMap nodes)
              (hOf h (buildNodeMap nodes) eN) sN.id (initState sN.id)
              [{ nodeId := sN.id, fScore := 0 }] [] := by
            refine ⟨by simp [initState], by simp [initState], rfl, ?_, ?_, ?_,
              ?_, ?_, ?_, List.nodup_nil⟩
            · intro v hv
              exact absurd hv (List.not_mem_nil v)
            · intro n g hrec
              by_cases hn : n = sN.id
              · exact ⟨0, hn⟩
              · rw [show (initState sN.id).gScore n = none by
                  simp [initState, hn]] at hrec
                cases hrec
            · intro it hit
              rw [List.mem_singleton.mp hit]
              exact Or.inl rfl
            · intro n hn g hrec
              by_cases hn2 : n = sN.id
              · subst hn2
                have hg0 : g = 0 := by
                  rw [show (initState sN.id).gScore sN.id = some 0 by
                    simp [initState]] at hrec
                  exact (Option.some.inj hrec).symm
                subst hg0
                refine ⟨⟨sN.id, 0⟩, List.mem_singleton.mpr rfl, rfl, ?_⟩
                have := hof0 sN.id
                show (0 : ℚ) ≤ 0 + hOf h (buildNodeMap nodes) eN sN.id
                linarith
              · rw [show (initState sN.id).gScore n = none by
                  simp [initState, hn2]] at hrec
                cases hrec
            · intro n hn
              exact absurd hn (List.not_mem_nil n)
            · intro it hit
              rw [List.mem_singleton.mp hit]
              exact hnmstart
          have hexp0 : Expanded (buildAdjacencyList edges) (initState sN.id)
              [] := by
            intro p hp
            exact absurd hp (List.not_mem_nil p)
          exact astarLoop_optimal Hcost Hcons HclosedAdj Hhof hnmstart HN
            (edges.length + nodes.length + 2)
            [{ nodeId := sN.id, fScore := 0 }] (initState sN.id) [] r inv0
            hexp0 (List.not_mem_nil eN.id) hloop

/-- Witness for C3 on a concrete two-node graph with a single unit edge of
penalty `0` and the constantly-zero heuristic. -/
theorem findPath_optimal_witness :
    ∃ sN eN,
      findNearestNode (fun _ _ _ _ => (0:ℚ)) [⟨"a", 0, 0⟩, ⟨"b", 1, 0⟩] 0 0 =
        some sN ∧
      findNearestNode (fun _ _ _ _ => (0:ℚ)) [⟨"a", 0, 0⟩, ⟨"b", 1, 0⟩] 1 0 =
        some eN ∧
      ∃ es, ValidWalk (buildAdjacencyList [⟨"e1", "a", "b", 1, 1, 0⟩])
          sN.id eN.id es ∧
        twoNodeResult.totalCost = walkCost es ∧
        (∀ es2, ValidWalk (buildAdjacencyList [⟨"e1", "a", "b", 1, 1, 0⟩])
          sN.id eN.id es2 → twoNodeResult.totalCost ≤ walkCost es2) ∧
        twoNodeResult.totalDistance = walkDist es ∧
        twoNodeResult.path = (sN.id :: es.map (fun e => e.nodeId)).filterMap
          (coordOf (buildNodeMap [⟨"a", 0, 0⟩, ⟨"b", 1, 0⟩])) := by
  have hrun : findPath (fun _ _ _ _ => 0) [⟨"a", 0, 0⟩, ⟨"b", 1, 0⟩]
      [⟨"e1", "a", "b", 1, 1, 0⟩] 0 0 1 0 = some twoNodeResult := by
    have hab : ¬ (("a" : String) = "b") := by decide
    have hba : ¬ (("b" : String) = "a") := by decide
    norm_num [hab, hba, findPath, findNearestNode, findNearestNodeAux, searchRadii,
      nodesInBox, pickClosest, astarLoop, popMin, relaxAll, relaxStep,
      buildAdjacencyList, entryOf, effectivePenalty, buildResult,
      reconstructPath, buildNodeMap, initState, twoNodeResult]
  exact findPath_optimal (fun _ _ _ _ => 0) [⟨"a", 0, 0⟩, ⟨"b", 1, 0⟩]
    [⟨"e1", "a", "b", 1, 1, 0⟩] 0 0 1 0 twoNodeResult
    (by
      intro e he
      rw [List.mem_singleton.mp he]
      norm_num [effectivePenalty])
    (by
      intro e he
      rw [List.mem_singleton.mp he]
      norm_num)
    (fun _ _ _ _ => le_refl 0)
    (by
      intro e he
      rw [List.mem_singleton.mp he]
      norm_num [buildNodeMap])
    (by
      intro e he ns nt hns hnt tLat tLng
      rw [List.mem_singleton.mp he]
      norm_num)
    hrun

/-- Witness for C4 on a concrete one-edge graph with penalty `0`. -/
theorem buildAdjacencyList_cost_witness :
    (⟨"e1", "a", "b", 7, 7, 0⟩ : PathEdge) ∈ [(⟨"e1", "a", "b", 7, 7, 0⟩ : PathEdge)] ∧
    entryOf (⟨"e1", "a", "b", 7, 7, 0⟩ : PathEdge) ∈
      buildAdjacencyList [⟨"e1", "a", "b", 7, 7, 0⟩] "a" ∧
    (entryOf (⟨"e1", "a", "b", 7, 7, 0⟩ : PathEdge)).cost = 7 := by
  have hmem : (⟨"e1", "a", "b", 7, 7, 0⟩ : PathEdge) ∈
      [(⟨"e1", "a", "b", 7, 7, 0⟩ : PathEdge)] := List.mem_singleton.mpr rfl
  have h := buildAdjacencyList_cost [⟨"e1", "a", "b", 7, 7, 0⟩]
  refine ⟨hmem, (h.1 _ hmem).1, ?_⟩
  have := h.2.2 _ hmem rfl
  rw [this]

end Pathfinding
